import Mathlib

/-!
Verification development for the `Resume_parser` repository
(`resume_final.py`): a shallow embedding in Lean 4 of the text
normalizer, the column-aware section segmenter, the name/skill
extractors, the experience-duration calculator and the top-level
result assembler, together with theorems settling the frozen claims
about those components.

Strings are modelled as `List Char` / `String`; Python `re`
substitutions and searches are modelled by bespoke executable
matchers whose semantics (leftmost scan, ordered alternation, greedy
backtracking) follow the CPython `re` engine on the concrete pattern
in question.  Python ints are modelled as `Int`/`Nat`.
-/

namespace ResumeFinal

/-! ### Python character classes and string primitives -/

/-- Whitespace as matched by Python's `\s` (on `str`) and by
`str.strip`/`str.isspace`: ASCII whitespace, the C0 separators and
the Unicode space code points. -/
def isPyWs (c : Char) : Bool :=
  c == ' ' || c == '\t' || c == '\n' || c == '\r' || c == '\x0b' || c == '\x0c' ||
  c == '\x1c' || c == '\x1d' || c == '\x1e' || c == '\x1f' || c == '\x85' ||
  c == '\u00A0' || c == '\u1680' || ('\u2000' ≤ c && c ≤ '\u200a') ||
  c == '\u2028' || c == '\u2029' || c == '\u202f' || c == '\u205f' || c == '\u3000'

/-- Python's `\d`, restricted to ASCII digits (the resume texts are ASCII;
non-ASCII decimal digits are not modelled).  Stated on code points
(`'0'` is 48, `'9'` is 57). -/
def isDigitCh (c : Char) : Bool := 48 ≤ c.toNat && c.toNat ≤ 57

/-- ASCII letter. -/
def isAlphaCh (c : Char) : Bool := ('a' ≤ c && c ≤ 'z') || ('A' ≤ c && c ≤ 'Z')

def isUpperCh (c : Char) : Bool := 'A' ≤ c && c ≤ 'Z'

def isLowerCh (c : Char) : Bool := 'a' ≤ c && c ≤ 'z'

/-- Python's `\w` (word character), restricted to ASCII. -/
def isWordCh (c : Char) : Bool := isAlphaCh c || isDigitCh c || c == '_'

/-- The apostrophe character, kept out of literals. -/
def apos : Char := Char.ofNat 39

def lowerCh (c : Char) : Char :=
  if isUpperCh c then Char.ofNat (c.toNat + 32) else c

def upperCh (c : Char) : Char :=
  if isLowerCh c then Char.ofNat (c.toNat - 32) else c

/-- Python `str.lower()` (ASCII range). -/
def pyLower (s : String) : String := String.mk (s.data.map lowerCh)

/-- Python `str.upper()` (ASCII range). -/
def pyUpper (s : String) : String := String.mk (s.data.map upperCh)

def lstripL (l : List Char) : List Char := l.dropWhile isPyWs

def rstripL (l : List Char) : List Char := (l.reverse.dropWhile isPyWs).reverse

/-- Python `str.strip()` on a character list. -/
def stripL (l : List Char) : List Char := rstripL (lstripL l)

/-- Python `str.strip()`. -/
def pyStrip (s : String) : String := String.mk (stripL s.data)

/-- Python `str.rstrip()`. -/
def pyRstrip (s : String) : String := String.mk (rstripL s.data)

/-- Python `str.strip(chars)`: remove the given characters from both ends. -/
def stripCharsL (bad : List Char) (l : List Char) : List Char :=
  ((l.dropWhile (fun c => bad.contains c)).reverse.dropWhile
    (fun c => bad.contains c)).reverse

def pyStripChars (bad : List Char) (s : String) : String :=
  String.mk (stripCharsL bad s.data)

/-- Split a character list at every character satisfying `p`
(Python `str.split(sep)` / `re.split` over single-character
alternatives: empty pieces are kept). -/
def splitOnP (p : Char → Bool) : List Char → List (List Char)
  | [] => [[]]
  | c :: cs =>
    if p c then [] :: splitOnP p cs
    else
      match splitOnP p cs with
      | h :: t => (c :: h) :: t
      | [] => [[c]]

/-- Python `text.split("\n")`. -/
def splitNl (s : String) : List String :=
  (splitOnP (fun c => c == '\n') s.data).map String.mk

/-- Whitespace tokenisation, Python `str.split()` (no empty tokens). -/
def wsSplitAux (acc : List Char) : List Char → List (List Char)
  | [] => if acc.isEmpty then [] else [acc.reverse]
  | c :: cs =>
    if isPyWs c then
      if acc.isEmpty then wsSplitAux [] cs else acc.reverse :: wsSplitAux [] cs
    else wsSplitAux (c :: acc) cs

def wsTokensL (l : List Char) : List (List Char) := wsSplitAux [] l

/-- Python `str.split()` on a `String`. -/
def pyWords (s : String) : List String := (wsTokensL s.data).map String.mk

/-- Number of whitespace-separated words, `len(s.split())`. -/
def countWords (s : String) : Nat := (wsTokensL s.data).length

/-- Substring test (used for Python's `in` on strings). -/
def containsSub (needle : List Char) : List Char → Bool
  | [] => needle.isEmpty
  | c :: cs => needle.isPrefixOf (c :: cs) || containsSub needle cs

def strContains (hay needle : String) : Bool := containsSub needle.data hay.data

/-! ### `_normalize_text_block` (resume_final.py lines 24-35)

Each `re.sub` of the source is modelled by an executable function whose
behaviour on every input agrees with the CPython scan
(leftmost match, greedy quantifiers with backtracking):

* `re.sub(r"\s+\n", "\n", txt)`: inside each maximal whitespace run,
  everything up to and including the *last* newline of the run is
  replaced by a single newline (no match if the run has no newline
  after its first character).
* `re.sub(r"\n{3,}", "\n\n", txt)`: each maximal run of three or more
  newlines becomes exactly two.
* `re.sub(r"\s{2,}", " ", txt)`: each maximal whitespace run of length
  at least two becomes a single space.
-/

/-- Characters of a whitespace run strictly after its last newline. -/
def afterLastNl (run : List Char) : List Char :=
  (run.reverse.takeWhile (fun c => !(c == '\n'))).reverse

/-- Replacement applied to one maximal whitespace run by
`re.sub(r"\s+\n", "\n", ·)`. -/
def flushWsNl (run : List Char) : List Char :=
  if run.contains '\n' then '\n' :: afterLastNl run else run

/-- `re.sub(r"\s+\n", "\n", txt)`, processing runs with an accumulator. -/
def subWsNlAux (pend : List Char) : List Char → List Char
  | [] => flushWsNl pend
  | c :: cs =>
    if isPyWs c then subWsNlAux (pend ++ [c]) cs
    else flushWsNl pend ++ c :: subWsNlAux [] cs

def subWsNl (l : List Char) : List Char := subWsNlAux [] l

/-- Replacement applied to one maximal newline run by
`re.sub(r"\n{3,}", "\n\n", ·)`. -/
def flushNl3 (run : List Char) : List Char :=
  if 3 ≤ run.length then ['\n', '\n'] else run

/-- `re.sub(r"\n{3,}", "\n\n", txt)`. -/
def subNl3Aux (pend : List Char) : List Char → List Char
  | [] => flushNl3 pend
  | c :: cs =>
    if c == '\n' then subNl3Aux (pend ++ [c]) cs
    else flushNl3 pend ++ c :: subNl3Aux [] cs

def subNl3 (l : List Char) : List Char := subNl3Aux [] l

/-- `re.sub(r"[\t\r]", " ", txt)`. -/
def subTabCr (l : List Char) : List Char :=
  l.map (fun c => if c == '\t' || c == '\r' then ' ' else c)

/-- Replacement applied to one maximal whitespace run by
`re.sub(r"\s{2,}", " ", ·)`. -/
def flushWs2 (run : List Char) : List Char :=
  if 2 ≤ run.length then [' '] else run

/-- `re.sub(r"\s{2,}", " ", txt)`. -/
def subWs2Aux (pend : List Char) : List Char → List Char
  | [] => flushWs2 pend
  | c :: cs =>
    if isPyWs c then subWs2Aux (pend ++ [c]) cs
    else flushWs2 pend ++ c :: subWs2Aux [] cs

def subWs2 (l : List Char) : List Char := subWs2Aux [] l

/-- Python `txt.replace` of the non-breaking space (U+00A0) by a space. -/
def replaceNbsp (l : List Char) : List Char :=
  l.map (fun c => if c == '\u00A0' then ' ' else c)

/-- Case-insensitive literal match: `lit` must be lowercase; returns the
rest of the input after the literal. -/
def litCI : List Char → List Char → Option (List Char)
  | [], cs => some cs
  | _ :: _, [] => none
  | l :: ls, c :: cs => if lowerCh c == l then litCI ls cs else none

/-- Consume `\d+` (greedy; at least one digit). -/
def digitsPlus : List Char → Option (List Char)
  | [] => none
  | c :: cs => if isDigitCh c then some (cs.dropWhile isDigitCh) else none

/-- Consume `\s+` (greedy; at least one whitespace character). -/
def wsPlus : List Char → Option (List Char)
  | [] => none
  | c :: cs => if isPyWs c then some (cs.dropWhile isPyWs) else none

/-- End of the footer pattern: `\s*$` with `re.MULTILINE`, i.e. the
greedy-longest split of the leading whitespace run whose stop position
is the end of the string or just before a newline.  Returns the
remainder (the newline, if any, is not consumed: `$` is zero-width). -/
def footerEnd (run rest : List Char) : Option (List Char) :=
  match rest with
  | [] => some []
  | r :: _ =>
    if r == '\n' then some rest
    else if run.contains '\n' then some ('\n' :: (afterLastNl run ++ rest))
    else none

/-- The `(of|/)` alternation of the footer pattern (ordered: `of` first). -/
def ofOrSlash (cs5 : List Char) : Option (List Char) :=
  match litCI "of".data cs5 with
  | some r => some r
  | none =>
    match cs5 with
    | '/' :: r => some r
    | _ => none

/-- Try `\s*Page\s+\d+\s+(of|/)\s*\d+\s*$` (case-insensitive) at a
position where `^` matches; returns the remainder after the match. -/
def tryFooterAt (cs : List Char) : Option (List Char) :=
  match litCI "page".data (cs.dropWhile isPyWs) with
  | none => none
  | some cs2 =>
    match wsPlus cs2 with
    | none => none
    | some cs3 =>
      match digitsPlus cs3 with
      | none => none
      | some cs4 =>
        match wsPlus cs4 with
        | none => none
        | some cs5 =>
          match ofOrSlash cs5 with
          | none => none
          | some cs6 =>
            match digitsPlus (cs6.dropWhile isPyWs) with
            | none => none
            | some cs8 =>
              footerEnd (cs8.takeWhile isPyWs) (cs8.dropWhile isPyWs)

/-- One scanning step of
`re.sub(r"^\s*Page\s+\d+\s+(of|/)\s*\d+\s*$", "", txt, re.I | re.M)`:
`atStart` records whether the current position is a line start
(start of string or just after a newline).  Fuel-driven; the fuel is
instantiated with the length of the input, which suffices because
every step consumes at least one character. -/
def dropFootersAux : Nat → Bool → List Char → List Char
  | 0, _, cs => cs
  | fuel + 1, atStart, cs =>
    match cs with
    | [] => []
    | c :: cs' =>
      if atStart then
        match tryFooterAt (c :: cs') with
        | some rest =>
          dropFootersAux fuel
            (((c :: cs').take ((c :: cs').length - rest.length)).getLast? ==
              some '\n') rest
        | none => c :: dropFootersAux fuel (c == '\n') cs'
      else c :: dropFootersAux fuel (c == '\n') cs'

def dropFooters (l : List Char) : List Char := dropFootersAux l.length true l

/-- `_normalize_text_block` (resume_final.py lines 24-35). -/
def normalize_text_block (s : String) : String :=
  if s.data.isEmpty then "" else
  String.mk (stripL (dropFooters (subWs2 (subTabCr (subNl3 (subWsNl
    (replaceNbsp s.data)))))))

/-- No two adjacent whitespace characters (every maximal whitespace run
has length one). -/
def noAdjWs : List Char → Bool
  | [] => true
  | [_] => true
  | a :: b :: t => (!(isPyWs a && isPyWs b)) && noAdjWs (b :: t)

/-! ### Data model for PyMuPDF documents

`page.get_text("dict")` yields blocks (with a bounding box and,
for text blocks, a list of lines), lines (lists of spans) and spans
(text, font name, size).  Image blocks have no `"lines"` key, modelled
by `lines? = none`.  Coordinates and font sizes are modelled as `Int`
(the comparison `x0 < width / 2` over the reals is encoded exactly as
`2 * x0 < width`). -/

structure Span where
  text : String
  font : String
  size : Int

structure SpanLine where
  spans : List Span

structure Block where
  x0 : Int
  y0 : Int
  lines? : Option (List SpanLine)

structure Page where
  width : Int
  blocks : List Block

abbrev Document := List Page

/-! ### `extract_sections_with_pymupdf` (resume_final.py lines 860-939) -/

/-- `SECTION_PATTERNS` (resume_final.py lines 860-868).  Each value
`\b(a|b|…)\b` is modelled by its ordered list of alternatives; the
source applies the pattern with `re.IGNORECASE` to `line_text.lower()`,
so the alternatives are stored lowercase (the source's case variants
such as `Skills`/`SKILLS` collapse to duplicates, kept here). -/
def SECTION_PATTERNS : List (String × List String) :=
  [("education", ["education", "academic", "qualification", "degree"]),
   ("experience", ["experience", "work", "employment", "job history",
      "professional background"]),
   ("skills", ["skills", "skills", "technical skills", "key skills",
      "competencies", "expertise", "technologies", "key skills ",
      "skills and expertise", "core skills", "skills", "skills"]),
   ("projects", ["projects", "portfolio", "works"]),
   ("certifications", ["certifications", "certificates", "accreditations"]),
   ("summary", ["summary", "profile", "objective", "about me",
      "professional summary"]),
   ("languages", ["language", "languages", "known languages",
      "spoken languages"])]

/-- Python's `\b`: a word boundary between two (possibly absent)
neighbouring characters holds when exactly one of them is a word
character (string edges count as non-word). -/
def boundaryOk (left right : Option Char) : Bool :=
  match left, right with
  | none, none => false
  | none, some r => isWordCh r
  | some l, none => isWordCh l
  | some l, some r => isWordCh l != isWordCh r

/-- Does `alt` occur at the head of `text` flanked by `\b` boundaries?
`prev?` is the character preceding the current position. -/
def altAtPos (alt : List Char) (prev? : Option Char) (text : List Char) :
    Bool :=
  alt.isPrefixOf text &&
  boundaryOk prev? alt.head? &&
  boundaryOk alt.getLast? (text.drop alt.length).head?

/-- `re.search` of `\b alt \b` over all positions of `text`. -/
def wordSearchFrom (alt : List Char) : Option Char → List Char → Bool
  | prev?, [] => altAtPos alt prev? []
  | prev?, c :: cs =>
    altAtPos alt prev? (c :: cs) || wordSearchFrom alt (some c) cs

/-- Boolean result of `re.search(r"\b(a|b|…)\b", text)`: some alternative
occurs somewhere at word boundaries. -/
def patternHit (alts : List String) (text : String) : Bool :=
  alts.any (fun a => wordSearchFrom a.data none text.data)

/-- The running state of the sectionizer: `current_section` and the
ordered `parsed_sections` dictionary (key order as in the source:
the seven pattern tags, then `"others"`). -/
structure SegState where
  current : String
  sections : List (String × List String)

/-- `parsed_sections[k].append(v)` (the key is always present). -/
def appendSection (m : List (String × List String)) (k : String) (v : String) :
    List (String × List String) :=
  m.map (fun kv => if kv.1 == k then (kv.1, kv.2 ++ [v]) else kv)

/-- `{k: [] for k in SECTION_PATTERNS.keys()}` plus `others`. -/
def initSections : List (String × List String) :=
  (SECTION_PATTERNS.map (fun p => (p.1, ([] : List String)))) ++ [("others", [])]

/-- Concatenated span texts of a line, `.strip()`ped. -/
def lineTextOf (ln : SpanLine) : String :=
  pyStrip (String.join (ln.spans.map (fun sp => sp.text)))

/-- `is_bold`: some span's font name contains `"bold"` (lower-cased). -/
def lineBoldOf (ln : SpanLine) : Bool :=
  ln.spans.any (fun sp => strContains (pyLower sp.font) "bold")

/-- `font_size`: maximum span size, starting from `0`. -/
def lineSizeOf (ln : SpanLine) : Int :=
  ln.spans.foldl (fun m sp => max m sp.size) 0

/-- The header-detection loop over `SECTION_PATTERNS.items()`: on a
regex hit the style test decides; a styled hit sets the section and
breaks, an unstyled hit falls through to the next pattern. -/
def headerScan (text : String) (bold : Bool) (size : Int) :
    List (String × List String) → Option String
  | [] => none
  | (tag, alts) :: rest =>
    if patternHit alts (pyLower text) then
      if bold || decide (11 < size) then some tag
      else headerScan text bold size rest
    else headerScan text bold size rest

/-- Header detection guarded by the 7-word limit
(`len(line_text.split()) <= 7`). -/
def headerTag (text : String) (bold : Bool) (size : Int) : Option String :=
  if countWords text ≤ 7 then headerScan text bold size SECTION_PATTERNS
  else none

/-- Processing of one line of a block: empty lines are skipped; a
detected header switches `current_section`; the line text is then
appended to the (possibly new) current section. -/
def sectionStep (st : SegState) (ln : SpanLine) : SegState :=
  let text := lineTextOf ln
  if text = "" then st
  else
    let cur := match headerTag text (lineBoldOf ln) (lineSizeOf ln) with
               | some tag => tag
               | none => st.current
    { current := cur, sections := appendSection st.sections cur text }

def blockLines (b : Block) : List SpanLine :=
  match b.lines? with
  | some ls => ls
  | none => []

/-- Stable insertion: the new (later) element goes after every existing
element that compares `le` to it, so elements with equal keys keep
their original order — the behaviour of Python's stable `sorted`. -/
def insertStable {α : Type} (le : α → α → Bool) (x : α) : List α → List α
  | [] => [x]
  | y :: ys => if le y x then y :: insertStable le x ys else x :: y :: ys

/-- Stable sort (insertion sort), extensionally Python's `sorted` for a
total comparison. -/
def stableSortBy {α : Type} (le : α → α → Bool) (l : List α) : List α :=
  l.foldl (fun acc x => insertStable le x acc) []

/-- Column split and per-column stable sort by `y0`: blocks with a
`"lines"` key are partitioned by `x0 <` midline (order preserved), then
each column is sorted by `y0` (Python's `sorted` is stable), left
column first. -/
def pageColumns (pg : Page) : List Block :=
  let withLines := pg.blocks.filter (fun b => b.lines?.isSome)
  let left := withLines.filter (fun b => decide (2 * b.x0 < pg.width))
  let right := withLines.filter (fun b => !(decide (2 * b.x0 < pg.width)))
  stableSortBy (fun a b => decide (a.y0 ≤ b.y0)) left ++
    stableSortBy (fun a b => decide (a.y0 ≤ b.y0)) right

def processPage (st : SegState) (pg : Page) : SegState :=
  (pageColumns pg).foldl (fun st' b => (blockLines b).foldl sectionStep st') st

/-- The whole scanning loop of `extract_sections_with_pymupdf`:
`current_section` starts as `"others"` and persists across pages. -/
def collectState (doc : Document) : SegState :=
  doc.foldl processPage { current := "others", sections := initSections }

/-- `re.sub(r'\s+', ' ', line)`: every maximal whitespace run becomes a
single space. -/
def subWsAllAux (pend : Bool) : List Char → List Char
  | [] => if pend then [' '] else []
  | c :: cs =>
    if isPyWs c then subWsAllAux true cs
    else (if pend then [' '] else []) ++ c :: subWsAllAux false cs

/-- Final per-line cleanup: `re.sub(r'\s+', ' ', line).strip()`. -/
def cleanWsLine (s : String) : String :=
  pyStrip (String.mk (subWsAllAux false s.data))

/-- Final cleanup of the sectionizer: clean each line, drop empties,
join with newlines. -/
def finalizeSections (m : List (String × List String)) :
    List (String × String) :=
  m.map (fun kv => (kv.1,
    String.intercalate "\n" ((kv.2.map cleanWsLine).filter (fun l => !(l == "")))))

/-- `extract_sections_with_pymupdf` (resume_final.py lines 871-939). -/
def extract_sections_with_pymupdf (doc : Document) : List (String × String) :=
  finalizeSections (collectState doc).sections

/-! ### `extract_skills` (resume_final.py lines 732-839) -/

/-- Python `str.isupper()` (ASCII): at least one letter, all letters
uppercase. -/
def pyIsUpper (l : List Char) : Bool :=
  l.any isAlphaCh && l.all (fun c => !isAlphaCh c || isUpperCh c)

/-- Python `str.islower()` (ASCII). -/
def pyIsLower (l : List Char) : Bool :=
  l.any isAlphaCh && l.all (fun c => !isAlphaCh c || isLowerCh c)

/-- Python `str.isalpha()` (ASCII). -/
def pyIsAlpha (l : List Char) : Bool := !l.isEmpty && l.all isAlphaCh

/-- Python `str.title()` (ASCII): a letter is uppercased when the
previous character is not a letter, lowercased otherwise. -/
def titleMap : Bool → List Char → List Char
  | _, [] => []
  | prevAlpha, c :: cs =>
    (if isAlphaCh c then (if prevAlpha then lowerCh c else upperCh c) else c) ::
      titleMap (isAlphaCh c) cs

def pyTitle (s : String) : String := String.mk (titleMap false s.data)

def pyEndsWith (s suf : String) : Bool := suf.data.isSuffixOf s.data

/-- The NLTK English stop-word list loaded by
`set(stopwords.words('english'))`.  This is external corpus data (not
part of the repository); the standard list is transcribed. -/
def stop_words_set : List String :=
  ["i", "me", "my", "myself", "we", "our", "ours", "ourselves", "you",
   "you\x27re", "you\x27ve", "you\x27ll", "you\x27d", "your", "yours",
   "yourself", "yourselves", "he", "him", "his", "himself", "she",
   "she\x27s", "her", "hers", "herself", "it", "it\x27s", "its", "itself",
   "they", "them", "their", "theirs", "themselves", "what", "which", "who",
   "whom", "this", "that", "that\x27ll", "these", "those", "am", "is",
   "are", "was", "were", "be", "been", "being", "have", "has", "had",
   "having", "do", "does", "did", "doing", "a", "an", "the", "and", "but",
   "if", "or", "because", "as", "until", "while", "of", "at", "by", "for",
   "with", "about", "against", "between", "into", "through", "during",
   "before", "after", "above", "below", "to", "from", "up", "down", "in",
   "out", "on", "off", "over", "under", "again", "further", "then", "once",
   "here", "there", "when", "where", "why", "how", "all", "any", "both",
   "each", "few", "more", "most", "other", "some", "such", "no", "nor",
   "not", "only", "own", "same", "so", "than", "too", "very", "s", "t",
   "can", "will", "just", "don", "don\x27t", "should", "should\x27ve",
   "now", "d", "ll", "m", "o", "re", "ve", "y", "ain", "aren",
   "aren\x27t", "couldn", "couldn\x27t", "didn", "didn\x27t", "doesn",
   "doesn\x27t", "hadn", "hadn\x27t", "hasn", "hasn\x27t", "haven",
   "haven\x27t", "isn", "isn\x27t", "ma", "mightn", "mightn\x27t",
   "mustn", "mustn\x27t", "needn", "needn\x27t", "shan", "shan\x27t",
   "shouldn", "shouldn\x27t", "wasn", "wasn\x27t", "weren", "weren\x27t",
   "won", "won\x27t", "wouldn", "wouldn\x27t"]

/-- `junk_keywords` (resume_final.py lines 736-757). -/
def junk_keywords : List String :=
  ["skills", "tools", "technologies", "services", "languages", "systems",
   "expertise", "responsibilities", "projects", "summary", "roles", "role",
   "team", "teams", "functional", "applications", "application",
   "platforms", "frameworks", "experience", "methodologies", "used", "use",
   "using", "proficient", "knowledge", "worked", "responsible",
   "designing", "developing", "testing", "managing", "created",
   "performed", "maintaining", "executing", "engineer", "engineered",
   "helped", "understanding", "done", "skills.", "communication",
   "problem", "teamwork", "collaboration", "leadership", "interpersonal",
   "thinking", "adaptability", "attention", "critical", "self", "fast",
   "quick", "learning", "and", "between", "to", "from", "till", "since",
   "before", "after", "year", "years", "etc", "etc.", "version", "control",
   "expert", "company", "client", "project", "organization", "details",
   "working", "environment", "task", "responsibility", "objective", "goal",
   "pune", "mumbai", "delhi", "bangalore", "hyderabad", "chennai",
   "kolkata", "india", "maharashtra", "karnataka", "gujarat", "rajasthan",
   "tamil nadu", "west bengal", "lecturer", "professor", "manager",
   "developer", "analyst", "consultant", "engineer", "coordinator",
   "specialist", "executive", "officer", "director", "lead", "senior",
   "junior", "bank", "coordination", "organizational", "confidently",
   "typing", "wpm", "english", "hindi", "marathi", "tamil", "telugu",
   "gujarati", "bengali"]

/-- `TECH_TERMS` (resume_final.py lines 759-771). -/
def TECH_TERMS : List String :=
  ["aws", "azure", "gcp", "docker", "kubernetes", "helm", "terraform",
   "ansible", "jenkins", "git", "gitlab", "python", "java", "javascript",
   "typescript", "node.js", "go", "golang", "ruby", "php", "c", "c++",
   "c#", "react", "angular", "vue", "next.js", "nuxt", "redux", "html",
   "css", "sass", "less", "bootstrap", "sql", "mysql", "postgresql",
   "postgres", "oracle", "mongodb", "hive", "spark", "hadoop", "pyspark",
   "selenium", "pytest", "junit", "testng", "cypress", "playwright",
   "jmeter", "rest", "rest api", "graphql", "soap", "microservices",
   "ci/cd", "api", "pandas", "numpy", "scikit-learn", "sklearn",
   "tensorflow", "pytorch", "nlp", "eda", "linux", "windows", "macos",
   "bash", "shell", "powershell", "jira", "confluence", "sap", "abap",
   "hana", "s/4hana", "fico", "mm", "sd", "pp", "tableau", "power bi",
   "spring", "hibernate", "maven", "gradle", "junit", "mockito", "kafka",
   "redis", "elasticsearch", "kibana", "logstash", "grafana",
   "prometheus", "splunk"]

/-- `FORCE_UPPER` (resume_final.py line 773). -/
def FORCE_UPPER : List String :=
  ["SQL", "HTML", "CSS", "AWS", "GCP", "EDA", "CNN", "RNN", "QA", "REST",
   "CI/CD", "API", "SAP", "ABAP"]

/-- `COMPANY_SUFFIXES` (resume_final.py line 784). -/
def COMPANY_SUFFIXES : List String :=
  ["technologies", "solutions", "labs", "pvt", "ltd", "inc", "llc",
   "limited", "corporation", "corp"]

/-- `VERB_CLUES` (resume_final.py line 785). -/
def VERB_CLUES : List String :=
  ["implemented", "designed", "developed", "built", "created", "managed",
   "led", "leading", "owning", "driving", "improved", "optimized",
   "maintained", "executed"]

/-- Alternatives of `MONTHS_RE` (resume_final.py line 783), lowercase:
the pattern is applied with `re.IGNORECASE` (note the source's full-name
list omits `May`, already covered by the abbreviation). -/
def monthsAlts : List String :=
  ["jan", "feb", "mar", "apr", "may", "jun", "jul", "aug", "sep", "sept",
   "oct", "nov", "dec", "january", "february", "march", "april", "june",
   "july", "august", "september", "october", "november", "december"]

/-- `re.search(r"\b\d{4}\b", t)`: four digits at word boundaries. -/
def year4At (prev? : Option Char) (text : List Char) : Bool :=
  match text with
  | a :: b :: c :: d :: rest =>
    isDigitCh a && isDigitCh b && isDigitCh c && isDigitCh d &&
    (match prev? with | none => true | some p => !isWordCh p) &&
    (match rest with | [] => true | r :: _ => !isWordCh r)
  | _ => false

def year4From : Option Char → List Char → Bool
  | prev?, [] => year4At prev? []
  | prev?, c :: cs => year4At prev? (c :: cs) || year4From (some c) cs

def hasYear4 (s : String) : Bool := year4From none s.data

/-- The character class `[A-Za-z0-9+#./_\- ]` of `is_short_tech_token`. -/
def allowedSkillCh (c : Char) : Bool :=
  isAlphaCh c || isDigitCh c || c == '+' || c == '#' || c == '.' ||
  c == '/' || c == '_' || c == '-' || c == ' '

/-- Python `w[:1].isupper() and w[1:].islower()` on a token. -/
def capShapePy : List Char → Bool
  | [] => false
  | c :: rest => isUpperCh c && pyIsLower rest

/-- `is_person_name` (resume_final.py lines 775-781). -/
def is_person_name (s : String) : Bool :=
  let words := wsTokensL (stripL s.data)
  if 2 ≤ words.length && words.length ≤ 4 &&
      words.all (fun w => !pyIsAlpha w || capShapePy w) then
    if words.any (fun w => TECH_TERMS.contains (String.mk (w.map lowerCh)))
    then false else true
  else false

/-- `is_short_tech_token` (resume_final.py lines 787-812). -/
def is_short_tech_token (tok : String) : Bool :=
  let t := pyStrip tok
  if t == "" then false
  else if 4 < countWords t then false
  else if !(t.data.all allowedSkillCh) then false
  else if pyEndsWith t "." && 3 < countWords t then false
  else if patternHit monthsAlts (pyLower t) || hasYear4 t then false
  else if stop_words_set.contains (pyLower t) ||
          junk_keywords.contains (pyLower t) then false
  else if t.data.all isDigitCh then false
  else if countWords t == 1 &&
          (pyEndsWith (pyLower t) "ing" || pyEndsWith (pyLower t) "ed")
    then false
  else if ((pyWords t).map pyLower).any
      (fun p => COMPANY_SUFFIXES.contains p) then false
  else if (match (pyWords t).map pyLower with
           | p :: _ => VERB_CLUES.contains p
           | [] => false) then false
  else if is_person_name t then false
  else true

/-- `re.sub(r"\(.*?\)", "", line)`: remove each non-greedy parenthesised
group; `.` does not match a newline, so a `(` with no `)` before the
next newline is not a match.  Fuel-driven scan (fuel = input length). -/
def removeParensAux : Nat → List Char → List Char
  | 0, cs => cs
  | _ + 1, [] => []
  | fuel + 1, c :: cs =>
    if c == '(' then
      match cs.dropWhile (fun d => !(d == ')') && !(d == '\n')) with
      | ')' :: tail => removeParensAux fuel tail
      | _ => c :: removeParensAux fuel cs
    else c :: removeParensAux fuel cs

def removeParens (s : String) : String :=
  String.mk (removeParensAux s.data.length s.data)

/-- Separators of `re.split(r"[,;/|\n]", cleaned_line)`. -/
def sepCh (c : Char) : Bool :=
  c == ',' || c == ';' || c == '/' || c == '|' || c == '\n'

/-- Final casing of an accepted token (resume_final.py lines 823-830). -/
def caseSkill (val : String) : String :=
  let up := pyUpper val
  if FORCE_UPPER.contains up || TECH_TERMS.contains (pyLower val) then up
  else if 1 < countWords val then
    String.intercalate " " ((pyWords val).map (fun w =>
      if ["ci/cd", "api", "sql"].contains (pyLower w) then pyUpper w
      else pyTitle w))
  else pyTitle val

/-- The candidate list built by the scanning loops of `extract_skills`
(resume_final.py lines 814-830), in emission order. -/
def skillCandidates (text : String) : List String :=
  ((splitNl text).filter (fun l => !(pyStrip l == ""))).flatMap (fun line =>
    (splitOnP sepCh (removeParens line).data).flatMap (fun token =>
      (splitOnP (fun c => c == ':') token).filterMap (fun sub =>
        let val := pyStripChars ['-', '•', '|'] (pyStrip (String.mk sub))
        if val == "" then none
        else if is_short_tech_token val then some (caseSkill val)
        else none)))

/-- The case-insensitive first-seen deduplication loop of
`extract_skills` (resume_final.py lines 832-838); `seen` holds the
lower-cased keys already emitted. -/
def dedupCIGo (seen : List String) : List String → List String
  | [] => []
  | c :: cs =>
    if seen.contains (pyLower c) then dedupCIGo seen cs
    else c :: dedupCIGo (pyLower c :: seen) cs

/-- `extract_skills` (resume_final.py lines 732-839). -/
def extract_skills (text : String) : List String :=
  dedupCIGo [] (skillCandidates text)

/-! ### `extract_name` (resume_final.py lines 336-587) -/

/-- First `some` of a list of options (models loops that `return` on the
first success and `continue` otherwise). -/
def firstSome {α : Type} : List (Option α) → Option α
  | [] => none
  | some a :: _ => some a
  | none :: rest => firstSome rest

/-- `SECTION_HEADERS` (resume_final.py lines 338-346). -/
def SECTION_HEADERS : List String :=
  ["profile", "summary", "objective", "about me", "professional summary",
   "profile summary", "skills", "technical skills", "key skills",
   "competencies", "expertise", "experience", "professional experience",
   "work experience", "employment history", "projects", "achievements",
   "certifications", "education", "references", "personal data",
   "personal details", "resume", "curriculum vitae", "biodata", "bio-data"]

/-- `SKIP_PHRASES` (resume_final.py lines 349-351). -/
def SKIP_PHRASES : List String :=
  ["resume", "curriculum vitae", "curriculumvitae", "cv", "bio-data",
   "biodata"]

/-- `JOB_TITLE_WORDS` (resume_final.py lines 363-369). -/
def JOB_TITLE_WORDS : List String :=
  ["senior", "junior", "lead", "software", "engineer", "developer",
   "manager", "director", "analyst", "specialist", "consultant",
   "administrator", "coordinator", "assistant", "associate", "executive",
   "officer", "president", "head", "chief", "test", "quality", "assurance",
   "designer", "architect", "technician", "support", "professional",
   "experience", "intern", "trainee", "dev", "qa", "sdet"]

/-- Python `ll.replace(" ", "")`. -/
def removeSpaces (s : String) : String :=
  String.mk (s.data.filter (fun c => !(c == ' ')))

/-- `_is_skip_phrase` (resume_final.py lines 353-361). -/
def is_skip_phrase (line : String) : Bool :=
  let ll := pyStripChars ['-', ':', '•', '|'] (pyLower (pyStrip line))
  if ll == "" then false
  else if SKIP_PHRASES.contains ll then true
  else if SKIP_PHRASES.contains (removeSpaces ll) then true
  else false

/-- `_is_section_header` (resume_final.py lines 393-395):
`line.strip().lower().rstrip(':')` membership. -/
def is_section_header (line : String) : Bool :=
  SECTION_HEADERS.contains
    (String.mk (((pyLower (pyStrip line)).data.reverse.dropWhile
      (fun c => c == ':')).reverse))

/-- Local part characters of `EMAIL_RE`. -/
def emailLocalCh (c : Char) : Bool :=
  isAlphaCh c || isDigitCh c || c == '.' || c == '_' || c == '%' ||
  c == '+' || c == '-'

/-- Domain characters of `EMAIL_RE`. -/
def emailDomCh (c : Char) : Bool :=
  isAlphaCh c || isDigitCh c || c == '.' || c == '-'

/-- Inside the maximal domain run after `@`, look for a dot at position
`≥ 1` directly followed by a letter — the boolean content of
`[a-zA-Z0-9.-]+\.[a-zA-Z]+` under backtracking. -/
def dotAlphaAt : Nat → List Char → Bool
  | _, [] => false
  | pos, c :: rest =>
    (c == '.' && decide (1 ≤ pos) &&
      (match rest with | d :: _ => isAlphaCh d | [] => false)) ||
    dotAlphaAt (pos + 1) rest

/-- Boolean `EMAIL_RE.search`
(`[a-zA-Z0-9._%+-]+@[a-zA-Z0-9.-]+\.[a-zA-Z]+`). -/
def emailScan : Option Char → List Char → Bool
  | _, [] => false
  | prev?, c :: cs =>
    (c == '@' &&
      (match prev? with | some p => emailLocalCh p | none => false) &&
      dotAlphaAt 0 (cs.takeWhile emailDomCh)) ||
    emailScan (some c) cs

def hasEmail (s : String) : Bool := emailScan none s.data

/-- Character class `[\d\-\s()]` of `PHONE_RE`. -/
def phoneCls (c : Char) : Bool :=
  isDigitCh c || c == '-' || isPyWs c || c == '(' || c == ')'

/-- Boolean `PHONE_RE.search` (`\+?\d[\d\-\s()]{7,}\d`): a digit, at
least seven class characters, then a digit (the optional `+` does not
constrain a search). -/
def hasPhoneFrom : List Char → Bool
  | [] => false
  | c :: cs =>
    (isDigitCh c && ((cs.takeWhile phoneCls).drop 7).any isDigitCh) ||
    hasPhoneFrom cs

def hasPhone (s : String) : Bool := hasPhoneFrom s.data

/-- Character class `[a-z0-9/_-]` of `URL_RE` under `re.I`. -/
def urlClsCh (c : Char) : Bool :=
  isAlphaCh c || isDigitCh c || c == '/' || c == '_' || c == '-'

/-- Boolean `URL_RE.search`
(`(https?://)?(www\.)?(linkedin|github)\.com/[a-z0-9/_-]+`, `re.I`):
the optional prefixes do not constrain a search. -/
def hasUrlFrom : List Char → Bool
  | [] => false
  | c :: cs =>
    (match litCI "linkedin.com/".data (c :: cs) with
     | some r => (match r with | d :: _ => urlClsCh d | [] => false)
     | none => false) ||
    (match litCI "github.com/".data (c :: cs) with
     | some r => (match r with | d :: _ => urlClsCh d | [] => false)
     | none => false) ||
    hasUrlFrom cs

def hasUrl (s : String) : Bool := hasUrlFrom s.data

/-- The symbol set `"/\\@#%^*_+=[]{}<>"` of `_bad_line` (braces written
via code points). -/
def badSyms : List Char :=
  ['/', '\\', '@', '#', '%', '^', '*', '_', '+', '=', '[', ']',
   Char.ofNat 123, Char.ofNat 125, '<', '>']

/-- `_bad_line` (resume_final.py lines 403-412); note
`any(tok.isdigit() for tok in line)` iterates over characters. -/
def bad_line (line : String) : Bool :=
  is_skip_phrase line || hasEmail line || hasPhone line || hasUrl line ||
  line.data.any isDigitCh ||
  line.data.any (fun c => badSyms.contains c)

/-- `_tokenize` (resume_final.py lines 414-415):
`re.split(r'\s+', line.strip())` without empties. -/
def tokenizeLine (line : String) : List String :=
  (wsTokensL (stripL line.data)).map String.mk

/-- `_has_job_title_tokens` (resume_final.py lines 417-418). -/
def has_job_title_tokens (line : String) : Bool :=
  (tokenizeLine line).any (fun t => JOB_TITLE_WORDS.contains (pyLower t))

/-- `_clean_candidate` (resume_final.py lines 397-401): strip, collapse
whitespace, strip the bullet/punctuation set `"•|-_—:;"`. -/
def clean_candidate (line : String) : String :=
  pyStripChars ['•', '|', '-', '_', '—', ':', ';']
    (String.mk (subWsAllAux false (pyStrip line).data))

/-- `^[A-Za-z][A-Za-z.\-']*$` of `_normalize_name_tokens` and the
first-line strategy. -/
def tokenRe (t : String) : Bool :=
  match t.data with
  | [] => false
  | c :: rest =>
    isAlphaCh c &&
    rest.all (fun d => isAlphaCh d || d == '.' || d == '-' || d == apos)

/-- `_normalize_name_tokens` (resume_final.py lines 428-437): note the
original token `t` is kept, the stripped `tt` only gates emptiness. -/
def normalize_name_tokens (tokens : List String) : List String :=
  tokens.filterMap (fun t =>
    let tt := pyStripChars ['.', '-', apos] t
    if tt == "" then none
    else if !(tokenRe t) then none
    else some t)

/-- `[A-Z][a-z]+` as a whole whitespace token. -/
def isCapWordL (w : List Char) : Bool :=
  match w with
  | c :: rest => isUpperCh c && !rest.isEmpty && rest.all isLowerCh
  | [] => false

/-- `[A-Z]{2,}` as a whole whitespace token. -/
def isCapsWordL (w : List Char) : Bool := 2 ≤ w.length && w.all isUpperCh

/-- Full match of `shape (\s+ shape){1,5}` over the whole string: no
leading/trailing whitespace, 2–6 tokens, each of the given shape. -/
def titleAlt12 (shape : List Char → Bool) (l : List Char) : Bool :=
  match l with
  | [] => false
  | c :: _ =>
    !isPyWs c &&
    (match l.getLast? with
     | some d => !isPyWs d
     | none => false) &&
    (let toks := wsTokensL l
     2 ≤ toks.length && toks.length ≤ 6 && toks.all shape)

/-- One `[A-Z]\.\s*` initial. -/
def parseInitial (l : List Char) : Option (List Char) :=
  match l with
  | c :: '.' :: rest =>
    if isUpperCh c then some (rest.dropWhile isPyWs) else none
  | _ => none

/-- `[A-Z][a-z]+` greedily; returns the rest. -/
def parseCapWord (l : List Char) : Option (List Char) :=
  match l with
  | c :: d :: rest =>
    if isUpperCh c && isLowerCh d then some (rest.dropWhile isLowerCh)
    else none
  | _ => none

/-- `[A-Z][a-z]+(\s+[A-Z][a-z]+)?$`. -/
def alt3End (l : List Char) : Bool :=
  match parseCapWord l with
  | none => false
  | some r =>
    r.isEmpty ||
    (match wsPlus r with
     | some r2 =>
       (match parseCapWord r2 with
        | some r3 => r3.isEmpty
        | none => false)
     | none => false)

/-- `([A-Z]\.\s*){1,3}[A-Z][a-z]+(\s+[A-Z][a-z]+)?$`. -/
def alt3 (l : List Char) : Bool :=
  match parseInitial l with
  | some r1 =>
    alt3End r1 ||
    (match parseInitial r1 with
     | some r2 =>
       alt3End r2 ||
       (match parseInitial r2 with
        | some r3 => alt3End r3
        | none => false)
     | none => false)
  | none => false

/-- Full match of `TITLE_NAME_RE` (resume_final.py lines 384-391). -/
def titleNameMatch (s : String) : Bool :=
  titleAlt12 isCapWordL s.data || titleAlt12 isCapsWordL s.data ||
    alt3 s.data

/-- Character class `[A-Za-z .'\-]` of `_is_name_shape`. -/
def nameShapeCh (c : Char) : Bool :=
  isAlphaCh c || c == ' ' || c == '.' || c == apos || c == '-'

/-- `_is_name_shape` (resume_final.py lines 420-426). -/
def is_name_shape (s : String) : Bool :=
  let t := clean_candidate s
  if t.data.length < 2 || 120 < t.data.length then false
  else if t.data.any (fun c => !nameShapeCh c) then false
  else titleNameMatch t

/-- Bullet class `[•*●■▪️❖\-–—]` of `LABEL_SPLIT_RE` (the source text
`▪️` is U+25AA followed by the variation selector U+FE0F; both are
members of the class). -/
def labelBullets : List Char :=
  ['•', '*', '●', '■', '▪', Char.ofNat 0xFE0F, '❖', '-', '–', '—']

/-- Separator class `[:\-–—]` of `LABEL_SPLIT_RE`. -/
def labelSeps : List Char := [':', '-', '–', '—']

/-- `LABEL_SPLIT_RE.match` (resume_final.py lines 375-382): optional
bullet, the label `name`/`full\s*name` (case-insensitive, `name` tried
first), a separator, then the captured remainder of the line. -/
def labelSplitMatch (line : String) : Option String :=
  let cs1 := line.data.dropWhile isPyWs
  let cs2 := match cs1 with
             | c :: t => if labelBullets.contains c then t.dropWhile isPyWs
                         else cs1
             | [] => cs1
  let afterLabel :=
    match litCI "name".data cs2 with
    | some r => some r
    | none =>
      match litCI "full".data cs2 with
      | some r1 => litCI "name".data (r1.dropWhile isPyWs)
      | none => none
  match afterLabel with
  | none => none
  | some r =>
    match r.dropWhile isPyWs with
    | sep :: r2 =>
      if labelSeps.contains sep then some (String.mk (r2.dropWhile isPyWs))
      else none
    | [] => none

/-- `_extract_from_labeled_block` (resume_final.py lines 439-476). -/
def labeled_block (lines : List String) (idx : Nat) : Option String :=
  match lines.drop idx with
  | [] => none
  | line :: after =>
    match labelSplitMatch line with
    | none => none
    | some g1 =>
      let remainder := clean_candidate g1
      let next2 := after.take 2
      let loopA : Option String :=
        if remainder == "" || (tokenizeLine remainder).length < 2 then
          firstSome (next2.map (fun nxtLine =>
            let nxt := clean_candidate nxtLine
            if nxt == "" || bad_line nxt || is_section_header nxt then none
            else
              let candidate := if remainder == "" then nxt
                               else pyStrip (remainder ++ " " ++ nxt)
              let tokens := normalize_name_tokens (tokenizeLine candidate)
              if 2 ≤ tokens.length && tokens.length ≤ 6 &&
                  !has_job_title_tokens candidate then
                let cand_str := String.intercalate " " tokens
                if is_name_shape cand_str then some cand_str else none
              else none))
        else none
      match loopA with
      | some v => some v
      | none =>
        let tokens := normalize_name_tokens (tokenizeLine remainder)
        let midCase : Option String :=
          if 2 ≤ tokens.length && tokens.length ≤ 6 then
            let candidate := String.intercalate " " tokens
            if !has_job_title_tokens candidate && is_name_shape candidate
            then some candidate else none
          else none
        match midCase with
        | some v => some v
        | none =>
          if tokens.length == 1 then
            firstSome (next2.map (fun nxtLine =>
              let nxt := clean_candidate nxtLine
              if nxt == "" || bad_line nxt || is_section_header nxt then none
              else
                let more := normalize_name_tokens (tokenizeLine nxt)
                let merged := (tokens ++ more).take 6
                if 2 ≤ merged.length then
                  let candidate := String.intercalate " " merged
                  if !has_job_title_tokens candidate &&
                      is_name_shape candidate
                  then some candidate else none
                else none))
          else none

/-- The inline all-caps stop set of `_extract_from_first_line_with_role`
(resume_final.py lines 492-495). -/
def ROLE_STOP_UPPER : List String :=
  ["SAP", "S/4HANA", "HANA", "ABAP", "SD", "MM", "PP", "FICO",
   "CONSULTANT", "ENGINEER", "DEVELOPER", "MANAGER", "ARCHITECT", "LEAD",
   "SR", "JR", "SENIOR", "JUNIOR", "ADMIN", "ADMINISTRATOR"]

/-- The token-accumulation loop of `_extract_from_first_line_with_role`:
accumulate matching tokens, stop at the first disqualifying one. -/
def roleAccum : List String → List String
  | [] => []
  | t :: ts =>
    if ROLE_STOP_UPPER.contains (pyUpper t) ||
        t.data.any isDigitCh ||
        t.data.contains '/' ||
        (pyIsUpper t.data && 2 < t.data.length) ||
        JOB_TITLE_WORDS.contains (pyLower t) then []
    else if tokenRe t then t :: roleAccum ts
    else []

/-- `_extract_from_first_line_with_role` (resume_final.py lines
478-514). -/
def first_line_with_role (lines : List String) : Option String :=
  match lines with
  | [] => none
  | l0 :: _ =>
    let first := clean_candidate l0
    if first == "" || bad_line first then none
    else
      let tokens := tokenizeLine first
      if tokens.isEmpty then none
      else
        let name_tokens := roleAccum tokens
        if 1 ≤ name_tokens.length && name_tokens.length ≤ 2 then
          let candidate := String.intercalate " " name_tokens
          if name_tokens.length == 1 then
            match name_tokens with
            | t :: _ =>
              if (match t.data with
                  | c :: _ => isUpperCh c
                  | [] => false) &&
                  !(JOB_TITLE_WORDS.contains (pyLower t)) then some candidate
              else none
            | [] => none
          else
            if is_name_shape candidate then some candidate else none
        else none

/-- `_name_score` (resume_final.py lines 516-531), with all weights
scaled by 20 to integers (the source weights 4.0, 2.0, 1.0, −1.0, 0.3,
0.4, −2.5, −5.0 and the position decay 2.0 − 0.15·idx are exact
multiples of 0.05; scores are modelled with exact arithmetic, CPython
float rounding is not modelled).  `indexWeight` is the pre-scaled
position bonus. -/
def name_score (line : String) (indexWeight : Int) : Int :=
  let cand := clean_candidate line
  let tokens := tokenizeLine cand
  (if titleNameMatch cand then (80 : Int) else 0) +
  (if 2 ≤ tokens.length && tokens.length ≤ 3 then (40 : Int)
   else if tokens.length == 4 then 20 else -20) +
  6 * ((tokens.filter (fun t =>
    (match t.data with | c :: _ => isUpperCh c | [] => false) &&
    pyIsLower (t.data.drop 1))).length : Int) +
  8 * ((tokens.filter (fun t =>
    pyIsUpper t.data && 1 < t.data.length)).length : Int) +
  (if has_job_title_tokens cand then (-50 : Int) else 0) +
  (if bad_line cand then (-100 : Int) else 0) +
  indexWeight

/-- The best-score selection loop of strategy 3 (resume_final.py lines
557-572): strictly greater scores win, earlier lines get the
position bonus `2.0 − 0.15·idx` (scaled: `40 − 3·idx`). -/
def scoreLoop : Nat → Option (String × Int) → List String →
    Option (String × Int)
  | _, best, [] => best
  | idx, best, ln :: rest =>
    let cand := clean_candidate ln
    if cand == "" || bad_line cand || has_job_title_tokens cand ||
        is_section_header cand || is_skip_phrase cand then
      scoreLoop (idx + 1) best rest
    else if !(is_name_shape cand) then scoreLoop (idx + 1) best rest
    else
      let sc := name_score cand (40 - 3 * (idx : Int))
      match best with
      | none => scoreLoop (idx + 1) (some (cand, sc)) rest
      | some (b, bs) =>
        if bs < sc then scoreLoop (idx + 1) (some (cand, sc)) rest
        else scoreLoop (idx + 1) (some (b, bs)) rest

/-- The preface of strategy 3 (resume_final.py lines 550-555). -/
def prefaceOf (lines : List String) : List String :=
  let pre := (lines.take 60).takeWhile (fun ln => !(is_section_header ln))
  if pre.isEmpty then lines.take 12 else pre.take 12

/-- The labeled-line scan of strategy 2 (resume_final.py lines
544-548). -/
def labeledScan (lines : List String) : Option String :=
  firstSome ((List.range (min 40 lines.length)).map (fun i =>
    match lines.drop i with
    | line :: _ =>
      if (labelSplitMatch line).isSome then labeled_block lines i else none
    | [] => none))

/-- The loose fallback of strategy 4 (resume_final.py lines 574-582). -/
def looseLoop (preface : List String) : Option String :=
  firstSome ((preface.take 5).map (fun ln =>
    if bad_line ln || is_section_header ln || is_skip_phrase ln then none
    else
      let toks0 := normalize_name_tokens (tokenizeLine ln)
      let toks := toks0.filter (fun t =>
        !(JOB_TITLE_WORDS.contains (pyLower t)))
      if 2 ≤ toks.length && toks.length ≤ 6 then
        let cand := String.intercalate " " (toks.take 4)
        if !(is_skip_phrase cand) && is_name_shape cand then some cand
        else none
      else none))

/-- `extract_name` (resume_final.py lines 533-587). -/
def extract_name (text : String) : String :=
  let raw_lines := (splitNl text).map pyRstrip
  let lines := (raw_lines.map pyStrip).filter (fun l => !(l == ""))
  if lines.isEmpty then "Unknown"
  else
    match first_line_with_role lines with
    | some n => n
    | none =>
      match labeledScan lines with
      | some n => n
      | none =>
        let preface := prefaceOf lines
        match scoreLoop 0 none preface with
        | some (best, _) => best
        | none =>
          match looseLoop preface with
          | some n => n
          | none =>
            let first := clean_candidate
              (match lines with | l :: _ => l | [] => "")
            if is_name_shape first && !(is_section_header first) &&
                !(is_skip_phrase first) then first
            else "Unknown"

/-- Concrete one-page document: a bold 12pt `Skills` header line followed
by a 10pt `Python` body line, in a single left-column block. -/
def docSkills : Document :=
  [{ width := 600,
     blocks := [{ x0 := 10, y0 := 10,
                  lines? := some
                    [{ spans := [{ text := "Skills", font := "Arial-Bold",
                                   size := 12 }] },
                     { spans := [{ text := "Python", font := "Arial",
                                   size := 10 }] }] }] }]

/-! ### Experience-duration calculator (resume_final.py lines 1013-1075) -/

/-- A Python `datetime` at day precision.  Times of day are not modelled:
all dates produced by `parse_date` are midnight, and `datetime.now()` is
modelled as the current date at midnight. -/
structure PyDate where
  y : Nat
  m : Nat
  d : Nat
deriving DecidableEq

/-- `datetime` comparison `<=`: lexicographic on (year, month, day). -/
def dateLe (a b : PyDate) : Bool :=
  decide (a.y < b.y ∨ (a.y = b.y ∧ (a.m < b.m ∨ (a.m = b.m ∧ a.d ≤ b.d))))

/-- `datetime` comparison `<`. -/
def dateLt (a b : PyDate) : Bool :=
  decide (a.y < b.y ∨ (a.y = b.y ∧ (a.m < b.m ∨ (a.m = b.m ∧ a.d < b.d))))

/-- `calendar.monthrange` day count, used by dateutil when a
month-shifted date must be clamped to the target month's length. -/
def daysInMonth (y m : Nat) : Nat :=
  if m = 2 then (if (y % 4 = 0 ∧ ¬ y % 100 = 0) ∨ y % 400 = 0 then 29 else 28)
  else if m = 4 ∨ m = 6 ∨ m = 9 ∨ m = 11 then 30
  else 31

/-- The raw month difference `12*(a.y - b.y) + (a.m - b.m)`. -/
def rawMonths (a b : PyDate) : Int :=
  12 * ((a.y : Int) - (b.y : Int)) + ((a.m : Int) - (b.m : Int))

/-- `relativedelta(a, b).years * 12 + relativedelta(a, b).months`: the raw
month difference, adjusted by one when the copy of `b` shifted by that
many months (it lands in `a`'s month, on day
`min b.d (daysInMonth a.y a.m)`) overshoots or undershoots `a`.  dateutil
adjusts in a loop, but one step always suffices because the shifted copy
already sits in `a`'s own month. -/
def monthsBetween (a b : PyDate) : Int :=
  if dateLt a b = true then
    (if min b.d (daysInMonth a.y a.m) < a.d then rawMonths a b + 1
     else rawMonths a b)
  else
    (if a.d < min b.d (daysInMonth a.y a.m) then rawMonths a b - 1
     else rawMonths a b)

/-- Month-name alternatives of `date_range_pattern` in the order the
regex engine tries them: each `X(?:yz)?` tries the long form first, and
`Sep(?:t)?(?:ember)?` yields september, sept, sepember, sep. -/
def monthAltsRange : List String :=
  ["january", "jan", "february", "feb", "march", "mar", "april", "apr",
   "may", "june", "jun", "july", "jul", "august", "aug",
   "september", "sept", "sepember", "sep", "october", "oct",
   "november", "nov", "december", "dec"]

/-- Consume `\d{4}` (exactly four digits), returning value and rest. -/
def take4digitsVal : List Char → Option (Nat × List Char)
  | a :: b :: c :: d :: rest =>
    if isDigitCh a && isDigitCh b && isDigitCh c && isDigitCh d then
      some ((a.toNat - 48) * 1000 + (b.toNat - 48) * 100 +
            (c.toNat - 48) * 10 + (d.toNat - 48), rest)
    else none
  | _ => none

/-- Consume `\d{4}`, discarding the value. -/
def take4 (cs : List Char) : Option (List Char) :=
  match take4digitsVal cs with
  | some pr => some pr.2
  | none => none

/-- The `\d{1,2}` + dash-or-slash alternative: `\d{1,2}` is greedy, so
two digits are tried before one; returns the rests in backtracking
order. -/
def d12Rests (cs : List Char) : List (List Char) :=
  (match cs with
   | a :: b :: s :: rest =>
     if isDigitCh a && isDigitCh b && (s == '-' || s == '/') then [rest]
     else []
   | _ => []) ++
  (match cs with
   | a :: s :: rest =>
     if isDigitCh a && (s == '-' || s == '/') then [rest] else []
   | _ => [])

/-- Rests after the inner start alternation (the month names followed by
the `\d{1,2}` + dash-or-slash alternative), in backtracking order. -/
def startInnerRests (cs : List Char) : List (List Char) :=
  monthAltsRange.filterMap (fun mn => litCI mn.data cs) ++ d12Rests cs

/-- Rests after the whole start group
`(?:...)\s*\d{4}|\d{4}`, in backtracking order (the `\s*` is greedy and
safe to commit since `\d{4}` never starts with whitespace). -/
def startRests (cs : List Char) : List (List Char) :=
  (startInnerRests cs).filterMap (fun r => take4 (r.dropWhile isPyWs)) ++
  (take4 cs).toList

/-- The connector alternation `(?:to|–|-|—|until|upto|through)`. -/
def connectors : List String := ["to", "–", "-", "—", "until", "upto", "through"]

/-- Rests after the end group
`(?:Present|Now|months|digits)\s*\d{4}|\d{4}|Present|Now` (where
`digits` is the `\d{1,2}` + dash-or-slash alternative), in backtracking
order. -/
def endRests (cs : List Char) : List (List Char) :=
  ((litCI "present".data cs).toList ++ (litCI "now".data cs).toList ++
    monthAltsRange.filterMap (fun mn => litCI mn.data cs) ++
    d12Rests cs).filterMap (fun r => take4 (r.dropWhile isPyWs)) ++
  (take4 cs).toList ++
  (litCI "present".data cs).toList ++
  (litCI "now".data cs).toList

/-- Attempt `date_range_pattern` anchored at the head of `cs`: returns the
`start` and `end` captures and the rest after the match.  The `\s*` runs
between the groups are greedy and deterministic (a connector or end group
never starts with whitespace); alternatives backtrack in regex order. -/
def matchRangeAt (cs : List Char) : Option (String × String × List Char) :=
  firstSome ((startRests cs).map (fun r1 =>
    firstSome (connectors.map (fun conn =>
      match litCI conn.data (r1.dropWhile isPyWs) with
      | none => none
      | some r3 =>
        match endRests (r3.dropWhile isPyWs) with
        | [] => none
        | r5 :: _ =>
          some (String.mk (cs.take (cs.length - r1.length)),
                String.mk ((r3.dropWhile isPyWs).take
                  ((r3.dropWhile isPyWs).length - r5.length)),
                r5)))))

/-- `finditer`: scan left to right; on a match emit the captures and
resume after the match, else advance one character.  Fuel bounds the
number of scan steps (each consumes at least one character). -/
def findRangesAux : Nat → List Char → List (String × String)
  | 0, _ => []
  | _ + 1, [] => []
  | fuel + 1, c :: cs =>
    match matchRangeAt (c :: cs) with
    | some (s, e, rest) => (s, e) :: findRangesAux fuel rest
    | none => findRangesAux fuel cs

def findRanges (text : String) : List (String × String) :=
  findRangesAux text.data.length text.data

/-- Abbreviated month names with their numbers (`strptime` `%b`). -/
def monthAbbrTbl : List (String × Nat) :=
  [("jan", 1), ("feb", 2), ("mar", 3), ("apr", 4), ("may", 5), ("jun", 6),
   ("jul", 7), ("aug", 8), ("sep", 9), ("oct", 10), ("nov", 11), ("dec", 12)]

/-- Full month names with their numbers (`strptime` `%B`). -/
def monthFullTbl : List (String × Nat) :=
  [("january", 1), ("february", 2), ("march", 3), ("april", 4), ("may", 5),
   ("june", 6), ("july", 7), ("august", 8), ("september", 9),
   ("october", 10), ("november", 11), ("december", 12)]

/-- `strptime` with format `"%b %Y"` or `"%B %Y"`: a month name
(alternation, case-insensitive), `\s+` (whitespace in a strptime format
matches `\s+`), exactly four digits, end of string; the day defaults
to 1.  Year 0 is rejected: the `datetime` constructor raises for years
below `MINYEAR = 1` and the format loop catches the exception. -/
def parseMonthYear (tbl : List (String × Nat)) (cs : List Char) :
    Option PyDate :=
  firstSome (tbl.map (fun p =>
    match litCI p.1.data cs with
    | none => none
    | some r =>
      match wsPlus r with
      | none => none
      | some r2 =>
        match take4digitsVal r2 with
        | some (yr, []) => if yr = 0 then none else some ⟨yr, p.2, 1⟩
        | _ => none))

/-- `strptime` `%m`: the regex `1[0-2]|0[1-9]|[1-9]`, alternatives in
order.  (When `1[0-2]` succeeds but the following separator fails, the
regex would retry `[1-9]`; that retry can never succeed, since the char
after the single digit would be a digit in 0-2 and the separator is `-`
or `/`, so committing to the two-digit parse is faithful.) -/
def parseMonthNum : List Char → Option (Nat × List Char)
  | [] => none
  | [c] =>
    if c == '1' then some (1, [])
    else if c == '0' then none
    else if isDigitCh c then some (c.toNat - 48, [])
    else none
  | c :: b :: rest2 =>
    if c == '1' then
      (if b == '0' || b == '1' || b == '2' then
        some (10 + (b.toNat - 48), rest2)
      else some (1, b :: rest2))
    else if c == '0' then
      (if isDigitCh b && !(b == '0') then some (b.toNat - 48, rest2) else none)
    else if isDigitCh c then some (c.toNat - 48, b :: rest2)
    else none

/-- `strptime` `"%m/%Y"` and `"%m-%Y"`: month number, the literal
separator, exactly four digits, end of string; year 0 rejected. -/
def parseNumYear (sep : Char) (cs : List Char) : Option PyDate :=
  match parseMonthNum cs with
  | some (mo, c :: rest) =>
    if c == sep then
      match take4digitsVal rest with
      | some (yr, []) => if yr = 0 then none else some ⟨yr, mo, 1⟩
      | _ => none
    else none
  | _ => none

/-- `strptime` `"%Y"`: exactly four digits and nothing else; month and
day default to 1; year 0 rejected. -/
def parseYearOnly (cs : List Char) : Option PyDate :=
  match take4digitsVal cs with
  | some (yr, []) => if yr = 0 then none else some ⟨yr, 1, 1⟩
  | _ => none

/-- `re.sub(r'\bSept\b', 'Sep', s, flags=re.IGNORECASE)`. -/
def replSeptAux : Nat → Option Char → List Char → List Char
  | 0, _, cs => cs
  | _ + 1, _, [] => []
  | fuel + 1, prev, c :: cs =>
    if (match prev with | some p => !isWordCh p | none => true) then
      match litCI "sept".data (c :: cs) with
      | some rest =>
        if (match rest with | d :: _ => !isWordCh d | [] => true) then
          'S' :: 'e' :: 'p' :: replSeptAux fuel (some 't') rest
        else c :: replSeptAux fuel (some c) cs
      | none => c :: replSeptAux fuel (some c) cs
    else c :: replSeptAux fuel (some c) cs

def replaceSeptWord (s : String) : String :=
  String.mk (replSeptAux s.data.length none s.data)

/-- `parse_date` (lines 1023-1030): replace the word `Sept` by `Sep`,
strip, then try the five formats in order; `none` when all fail. -/
def parse_date (s : String) : Option PyDate :=
  match parseMonthYear monthAbbrTbl (pyStrip (replaceSeptWord s)).data with
  | some dt => some dt
  | none =>
  match parseMonthYear monthFullTbl (pyStrip (replaceSeptWord s)).data with
  | some dt => some dt
  | none =>
  match parseNumYear '/' (pyStrip (replaceSeptWord s)).data with
  | some dt => some dt
  | none =>
  match parseNumYear '-' (pyStrip (replaceSeptWord s)).data with
  | some dt => some dt
  | none => parseYearOnly (pyStrip (replaceSeptWord s)).data

/-- Line 1038: the end date is `now` when the end string matches
`present|now` case-insensitively (a substring search), else it is
parsed. -/
def resolveEnd (now : PyDate) (es : String) : Option PyDate :=
  if strContains (pyLower es) "present" || strContains (pyLower es) "now" then
    some now
  else parse_date es

/-- The body of the interval loop (lines 1035-1045): keep a match when
both dates parse, the end is not before the start, the start year is at
least 1980, and the range spans at most 20 calendar years. -/
def intervalOfPair (now : PyDate) (p : String × String) :
    Option (PyDate × PyDate) :=
  match parse_date (pyStrip p.1), resolveEnd now (pyStrip p.2) with
  | some sd, some ed =>
    if dateLe sd ed = true then
      if sd.y < 1980 then none
      else if 20 < (ed.y : Int) - (sd.y : Int) then none
      else some (sd, ed)
    else none
  | _, _ => none

/-- The list `intervals` of line 1033. -/
def keptIntervals (now : PyDate) (text : String) : List (PyDate × PyDate) :=
  (findRanges text).filterMap (intervalOfPair now)

/-- The sweep of lines 1052-1060: extend the current interval when the
next (sorted) start does not pass the current end, else emit and
restart from the next interval. -/
def mergeSweep : PyDate × PyDate → List (PyDate × PyDate) → List (PyDate × PyDate)
  | cur, [] => [cur]
  | cur, nxt :: rest =>
    if dateLe nxt.1 cur.2 = true then
      mergeSweep (cur.1, if dateLt cur.2 nxt.2 = true then nxt.2 else cur.2) rest
    else cur :: mergeSweep nxt rest

/-- `merged`: the kept intervals stably sorted by start date (Python's
`list.sort(key=lambda x: x[0])`) and swept. -/
def mergedIntervals (now : PyDate) (text : String) : List (PyDate × PyDate) :=
  match stableSortBy (fun a b => dateLe a.1 b.1) (keptIntervals now text) with
  | [] => []
  | c :: rest => mergeSweep c rest

/-- `total_months` before the caps (lines 1062-1065). -/
def rawTotal (now : PyDate) (text : String) : Int :=
  ((mergedIntervals now text).map (fun pr => monthsBetween pr.2 pr.1)).sum

/-- `merged[0][0]` (line 1067). -/
def earliestStart (now : PyDate) (text : String) : PyDate :=
  match mergedIntervals now text with
  | [] => ⟨0, 0, 0⟩
  | pr :: _ => pr.1

/-- Lines 1072-1075: `years = tm // 12`, `months = tm % 12` (Python floor
division and modulus for the positive divisor 12 coincide with `Int`'s
Euclidean `/` and `%`) interpolated into
`f"{years} years and {months} months"`. -/
def renderExp (tm : Int) : String :=
  let years := tm / 12
  let months := tm % 12
  s!"{years} years and {months} months"

/-- `calculate_total_experience` (lines 1013-1075), with `datetime.now()`
passed explicitly; `50 * 12 = 600`, and
`min (min total maxMonths) 600` is the two successive `min` updates of
lines 1069-1070. -/
def calculate_total_experience (now : PyDate) (text : String) : String :=
  if keptIntervals now text = [] then "0 years and 0 months"
  else
    renderExp (min (min (rawTotal now text)
      (monthsBetween now (earliestStart now text))) 600)

/-! ### `process_resume` (resume_final.py lines 1078-1134) -/

/-- The `personalInfo` sub-record; `none` models JSON `null`. -/
structure PersonalInfo where
  name : String
  email : Option String
  phone : Option String
  linkedin : Option String
  github : Option String
  location : Option String
deriving DecidableEq

/-- The record `process_resume` serialises (the `json.dumps` encoding is
not modelled, the record's fields are).  `error` is `none` on the
success path: the key is present only in the fallback dict. -/
structure ResumeRecord where
  personalInfo : PersonalInfo
  skills : List String
  total_experience : String
  error : Option String
deriving DecidableEq

/-- The data computed by the `try`-block body (lines 1081-1125) when no
exception occurs.  The extractors themselves (file reading included) are
modelled elsewhere or are out of scope here; what `process_resume` adds
is the assembly and the failure boundary. -/
structure PipelineSuccess where
  name : String
  email : Option String
  phone : Option String
  linkedin : Option String
  github : Option String
  location : Option String
  skills : List String
  total_exp : String
deriving DecidableEq

/-- `process_resume` (lines 1078-1134) over the outcome of its
`try`-block: on success build the result record, applying the falsy
defaults of lines 1123-1124 (`skills or []` is the identity on lists —
the only falsy list is `[]` itself — and `total_exp or "0 years and 0
months"` replaces an empty string); on an exception build the fixed
fallback record carrying the exception text `str(e)`. -/
def process_resume (outcome : Except String PipelineSuccess) : ResumeRecord :=
  match outcome with
  | Except.ok r =>
    { personalInfo :=
        { name := r.name, email := r.email, phone := r.phone,
          linkedin := r.linkedin, github := r.github,
          location := r.location },
      skills := r.skills,
      total_experience :=
        if r.total_exp = "" then "0 years and 0 months" else r.total_exp,
      error := none }
  | Except.error msg =>
    { personalInfo :=
        { name := "Unknown", email := none, phone := none, linkedin := none,
          github := none, location := none },
      skills := [],
      total_experience := "0 years and 0 months",
      error := some msg }

/-! ## Supporting lemmas -/

theorem mapIdOn {f : Char → Char} :
    ∀ {l : List Char}, (∀ c ∈ l, f c = c) → l.map f = l
  | [], _ => rfl
  | c :: cs, h => by
    simp only [List.map_cons, h c (by simp), List.cons.injEq, true_and]
    exact mapIdOn fun x hx => h x (by simp [hx])

theorem dropWhile_idem (p : Char → Bool) (l : List Char) :
    (l.dropWhile p).dropWhile p = l.dropWhile p := by
  induction l with
  | nil => rfl
  | cons c cs ih =>
    cases h : p c
    · rw [List.dropWhile_cons, if_neg (by simp [h]), List.dropWhile_cons,
        if_neg (by simp [h])]
    · rw [List.dropWhile_cons, if_pos h]
      exact ih

theorem lstripL_idem (l : List Char) : lstripL (lstripL l) = lstripL l :=
  dropWhile_idem isPyWs l

theorem rstripL_idem (l : List Char) : rstripL (rstripL l) = rstripL l := by
  simp only [rstripL, List.reverse_reverse]
  rw [dropWhile_idem]

theorem lstripL_eq_self_of_pre {l m : List Char}
    (h : lstripL l = l) (hp : m <+: l) : lstripL m = m := by
  rcases m with - | ⟨c, t⟩
  · rfl
  · rcases hp with ⟨r, hr⟩
    subst hr
    have hc : isPyWs c = false := by
      cases hx : isPyWs c
      · rfl
      · exfalso
        have h2 : List.dropWhile isPyWs (t ++ r) = c :: (t ++ r) := by
          have h3 : lstripL ((c :: t) ++ r) = List.dropWhile isPyWs (t ++ r) := by
            simp [lstripL, List.dropWhile_cons, hx]
          rw [h3] at h
          simpa using h
        have hle := (@List.dropWhile_sublist _ (t ++ r) isPyWs).length_le
        rw [h2] at hle
        simp at hle
    simp [lstripL, List.dropWhile_cons, hc]

theorem rstripL_pre (l : List Char) : rstripL l <+: l := by
  rw [← List.reverse_suffix]
  simpa [rstripL] using @List.dropWhile_suffix _ l.reverse isPyWs

theorem stripL_idem (l : List Char) : stripL (stripL l) = stripL l := by
  unfold stripL
  rw [lstripL_eq_self_of_pre (lstripL_idem l) (rstripL_pre (lstripL l)),
    rstripL_idem]

theorem mem_afterLastNl {c : Char} {run : List Char}
    (h : c ∈ afterLastNl run) : c ∈ run := by
  unfold afterLastNl at h
  rw [List.mem_reverse] at h
  exact List.mem_reverse.mp ((List.takeWhile_sublist _).mem h)

theorem mem_flushWsNl {c : Char} {run : List Char}
    (h : c ∈ flushWsNl run) : c ∈ run ∨ c = '\n' := by
  unfold flushWsNl at h
  split at h
  · rcases List.mem_cons.mp h with h | h
    · right; exact h
    · left; exact mem_afterLastNl h
  · left; exact h

theorem mem_subWsNlAux {c : Char} :
    ∀ {l pend : List Char}, c ∈ subWsNlAux pend l →
      c ∈ pend ∨ c ∈ l ∨ c = '\n'
  | [], pend, h => by
    rcases mem_flushWsNl h with h' | h'
    · exact Or.inl h'
    · exact Or.inr (Or.inr h')
  | a :: l, pend, h => by
    unfold subWsNlAux at h
    split at h
    · rcases mem_subWsNlAux h with h' | h' | h'
      · rcases List.mem_append.mp h' with h'' | h''
        · exact Or.inl h''
        · simp only [List.mem_singleton] at h''
          exact Or.inr (Or.inl (by simp [h'']))
      · exact Or.inr (Or.inl (by simp [h']))
      · exact Or.inr (Or.inr h')
    · rcases List.mem_append.mp h with h' | h'
      · rcases mem_flushWsNl h' with h'' | h''
        · exact Or.inl h''
        · exact Or.inr (Or.inr h'')
      · rcases List.mem_cons.mp h' with h'' | h''
        · exact Or.inr (Or.inl (by simp [h'']))
        · rcases mem_subWsNlAux h'' with h3 | h3 | h3
          · exact absurd h3 (List.not_mem_nil c)
          · exact Or.inr (Or.inl (by simp [h3]))
          · exact Or.inr (Or.inr h3)

theorem mem_flushNl3 {c : Char} {run : List Char}
    (h : c ∈ flushNl3 run) : c ∈ run ∨ c = '\n' := by
  unfold flushNl3 at h
  split at h
  · rcases List.mem_cons.mp h with h | h
    · right; exact h
    · right; simpa using h
  · left; exact h

theorem mem_subNl3Aux {c : Char} :
    ∀ {l pend : List Char}, c ∈ subNl3Aux pend l →
      c ∈ pend ∨ c ∈ l ∨ c = '\n'
  | [], pend, h => by
    rcases mem_flushNl3 h with h' | h'
    · exact Or.inl h'
    · exact Or.inr (Or.inr h')
  | a :: l, pend, h => by
    unfold subNl3Aux at h
    split at h
    · rcases mem_subNl3Aux h with h' | h' | h'
      · rcases List.mem_append.mp h' with h'' | h''
        · exact Or.inl h''
        · simp only [List.mem_singleton] at h''
          exact Or.inr (Or.inl (by simp [h'']))
      · exact Or.inr (Or.inl (by simp [h']))
      · exact Or.inr (Or.inr h')
    · rcases List.mem_append.mp h with h' | h'
      · rcases mem_flushNl3 h' with h'' | h''
        · exact Or.inl h''
        · exact Or.inr (Or.inr h'')
      · rcases List.mem_cons.mp h' with h'' | h''
        · exact Or.inr (Or.inl (by simp [h'']))
        · rcases mem_subNl3Aux h'' with h3 | h3 | h3
          · exact absurd h3 (List.not_mem_nil c)
          · exact Or.inr (Or.inl (by simp [h3]))
          · exact Or.inr (Or.inr h3)

theorem mem_flushWs2 {c : Char} {run : List Char}
    (h : c ∈ flushWs2 run) : c ∈ run ∨ c = ' ' := by
  unfold flushWs2 at h
  split at h
  · right; simpa using h
  · left; exact h

theorem mem_subWs2Aux {c : Char} :
    ∀ {l pend : List Char}, c ∈ subWs2Aux pend l →
      c ∈ pend ∨ c ∈ l ∨ c = ' '
  | [], pend, h => by
    rcases mem_flushWs2 h with h' | h'
    · exact Or.inl h'
    · exact Or.inr (Or.inr h')
  | a :: l, pend, h => by
    unfold subWs2Aux at h
    split at h
    · rcases mem_subWs2Aux h with h' | h' | h'
      · rcases List.mem_append.mp h' with h'' | h''
        · exact Or.inl h''
        · simp only [List.mem_singleton] at h''
          exact Or.inr (Or.inl (by simp [h'']))
      · exact Or.inr (Or.inl (by simp [h']))
      · exact Or.inr (Or.inr h')
    · rcases List.mem_append.mp h with h' | h'
      · rcases mem_flushWs2 h' with h'' | h''
        · exact Or.inl h''
        · exact Or.inr (Or.inr h'')
      · rcases List.mem_cons.mp h' with h'' | h''
        · exact Or.inr (Or.inl (by simp [h'']))
        · rcases mem_subWs2Aux h'' with h3 | h3 | h3
          · exact absurd h3 (List.not_mem_nil c)
          · exact Or.inr (Or.inl (by simp [h3]))
          · exact Or.inr (Or.inr h3)

theorem litCI_suffix : ∀ {lit cs r : List Char},
    litCI lit cs = some r → r <:+ cs
  | [], cs, r, h => by
    simp only [litCI, Option.some.injEq] at h
    exact h ▸ List.suffix_refl cs
  | l :: ls, [], r, h => by simp [litCI] at h
  | l :: ls, c :: cs, r, h => by
    unfold litCI at h
    split at h
    · exact (litCI_suffix h).trans (List.suffix_cons c cs)
    · exact absurd h (by simp)

theorem wsPlus_suffix : ∀ {cs r : List Char}, wsPlus cs = some r → r <:+ cs
  | [], r, h => by simp [wsPlus] at h
  | c :: cs, r, h => by
    simp only [wsPlus] at h
    split at h
    · simp only [Option.some.injEq] at h
      subst h
      exact (List.dropWhile_suffix isPyWs).trans (List.suffix_cons c cs)
    · exact absurd h (by simp)

theorem digitsPlus_suffix : ∀ {cs r : List Char},
    digitsPlus cs = some r → r <:+ cs
  | [], r, h => by simp [digitsPlus] at h
  | c :: cs, r, h => by
    simp only [digitsPlus] at h
    split at h
    · simp only [Option.some.injEq] at h
      subst h
      exact (List.dropWhile_suffix isDigitCh).trans (List.suffix_cons c cs)
    · exact absurd h (by simp)

theorem dropWhile_head_not (p : Char → Bool) :
    ∀ {l : List Char} {d : Char} {t : List Char},
      l.dropWhile p = d :: t → p d = false
  | [], d, t, h => by simp at h
  | c :: cs, d, t, h => by
    rw [List.dropWhile_cons] at h
    split at h
    · exact dropWhile_head_not p h
    · next hc =>
      injection h with h1 h2
      subst h1
      cases hx : p c
      · rfl
      · exact absurd hx hc

theorem afterLastNl_split {run : List Char} (h : run.contains '\n' = true) :
    ∃ a, run = a ++ '\n' :: afterLastNl run := by
  have hmem : '\n' ∈ run.reverse := by
    rw [List.mem_reverse]
    simpa using h
  have hne : run.reverse.dropWhile (fun c => !(c == '\n')) ≠ [] := by
    intro hnil
    rw [List.dropWhile_eq_nil_iff] at hnil
    have := hnil _ hmem
    simp at this
  rcases hd : run.reverse.dropWhile (fun c => !(c == '\n')) with - | ⟨d, t⟩
  · exact absurd hd hne
  · have hdnl : d = '\n' := by
      have := dropWhile_head_not (fun c => !(c == '\n')) hd
      simpa using this
    subst hdnl
    refine ⟨t.reverse, ?_⟩
    have hsplit := List.takeWhile_append_dropWhile
      (fun c => !(c == '\n')) run.reverse
    rw [hd] at hsplit
    have hrun : run = (run.reverse.takeWhile (fun c => !(c == '\n')) ++
        '\n' :: t).reverse := by
      rw [hsplit, List.reverse_reverse]
    conv_lhs => rw [hrun]
    simp [afterLastNl, List.reverse_append]

theorem footerEnd_suffix {cs8 r : List Char}
    (h : footerEnd (cs8.takeWhile isPyWs) (cs8.dropWhile isPyWs) = some r) :
    r <:+ cs8 := by
  unfold footerEnd at h
  split at h
  · simp only [Option.some.injEq] at h
    subst h
    exact List.nil_suffix
  · split at h
    · simp only [Option.some.injEq] at h
      subst h
      exact List.dropWhile_suffix isPyWs
    · split at h
      · next hcont =>
        simp only [Option.some.injEq] at h
        subst h
        rcases afterLastNl_split hcont with ⟨a, ha⟩
        have hsplit := List.takeWhile_append_dropWhile isPyWs cs8
        refine ⟨a, ?_⟩
        calc a ++ '\n' :: (afterLastNl (cs8.takeWhile isPyWs) ++
              cs8.dropWhile isPyWs)
            = (a ++ '\n' :: afterLastNl (cs8.takeWhile isPyWs)) ++
              cs8.dropWhile isPyWs := by simp
          _ = cs8.takeWhile isPyWs ++ cs8.dropWhile isPyWs := by rw [← ha]
          _ = cs8 := hsplit
      · exact absurd h (by simp)

theorem ofOrSlash_suffix {cs5 r : List Char}
    (h : ofOrSlash cs5 = some r) : r <:+ cs5 := by
  unfold ofOrSlash at h
  split at h
  · next h5 =>
    simp only [Option.some.injEq] at h
    subst h
    exact litCI_suffix h5
  · split at h
    · simp only [Option.some.injEq] at h
      subst h
      exact List.suffix_cons _ _
    · exact absurd h (by simp)

theorem tryFooterAt_suffix {cs r : List Char}
    (h : tryFooterAt cs = some r) : r <:+ cs := by
  unfold tryFooterAt at h
  split at h
  · exact absurd h (by simp)
  next cs2 h1 =>
  split at h
  · exact absurd h (by simp)
  next cs3 h2 =>
  split at h
  · exact absurd h (by simp)
  next cs4 h3 =>
  split at h
  · exact absurd h (by simp)
  next cs5 h4 =>
  split at h
  · exact absurd h (by simp)
  next cs6 h5 =>
  split at h
  · exact absurd h (by simp)
  next cs8 h6 =>
  exact (footerEnd_suffix h).trans <| (digitsPlus_suffix h6).trans <|
    (List.dropWhile_suffix isPyWs).trans <| (ofOrSlash_suffix h5).trans <|
    (wsPlus_suffix h4).trans <| (digitsPlus_suffix h3).trans <|
    (wsPlus_suffix h2).trans <| (litCI_suffix h1).trans
    (List.dropWhile_suffix isPyWs)

theorem dropFootersAux_nil (fuel : Nat) (b : Bool) :
    dropFootersAux fuel b [] = [] := by
  cases fuel <;> rfl

theorem dropFootersAux_cons (fuel : Nat) (b : Bool) (a : Char)
    (cs' : List Char) :
    dropFootersAux (fuel + 1) b (a :: cs') =
      (if b then
        match tryFooterAt (a :: cs') with
        | some rest =>
          dropFootersAux fuel
            (((a :: cs').take ((a :: cs').length - rest.length)).getLast? ==
              some '\n') rest
        | none => a :: dropFootersAux fuel (a == '\n') cs'
      else a :: dropFootersAux fuel (a == '\n') cs') := rfl

theorem mem_dropFootersAux {c : Char} :
    ∀ (fuel : Nat) (b : Bool) {cs : List Char},
      c ∈ dropFootersAux fuel b cs → c ∈ cs
  | 0, b, cs, h => h
  | fuel + 1, b, cs, h => by
    rcases cs with - | ⟨a, cs'⟩
    · rwa [dropFootersAux_nil] at h
    · rw [dropFootersAux_cons] at h
      revert h
      split
      · split
        · next rest hsome =>
          intro h
          exact (tryFooterAt_suffix hsome).mem (mem_dropFootersAux fuel _ h)
        · intro h
          rcases List.mem_cons.mp h with h' | h'
          · simp [h']
          · exact List.mem_cons.mpr (Or.inr (mem_dropFootersAux fuel _ h'))
      · intro h
        rcases List.mem_cons.mp h with h' | h'
        · simp [h']
        · exact List.mem_cons.mpr (Or.inr (mem_dropFootersAux fuel _ h'))

theorem mem_stripL {c : Char} {l : List Char} (h : c ∈ stripL l) : c ∈ l := by
  unfold stripL rstripL lstripL at h
  rw [List.mem_reverse] at h
  have h2 := (List.dropWhile_sublist isPyWs).mem h
  rw [List.mem_reverse] at h2
  exact (List.dropWhile_sublist isPyWs).mem h2

theorem noAdjWs_tail {a : Char} {l : List Char}
    (h : noAdjWs (a :: l) = true) : noAdjWs l = true := by
  rcases l with - | ⟨b, t⟩
  · rfl
  · simp only [noAdjWs, Bool.and_eq_true] at h
    exact h.2

theorem noAdjWs_second {a b : Char} {l : List Char}
    (h : noAdjWs (a :: b :: l) = true) (ha : isPyWs a = true) :
    isPyWs b = false := by
  have h1 : (!(isPyWs a && isPyWs b)) = true := by
    simp only [noAdjWs, Bool.and_eq_true] at h
    exact h.1
  rw [ha] at h1
  simpa using h1

theorem flushWsNl_short : ∀ {pend : List Char}, pend.length ≤ 1 →
    flushWsNl pend = pend
  | [], _ => rfl
  | [c], _ => by
    unfold flushWsNl
    split
    · next h =>
      have hc : '\n' = c := by simpa [List.contains] using h
      subst hc
      rfl
    · rfl
  | c :: d :: t, h => by simp at h

theorem flushNl3_short {pend : List Char} (h : pend.length ≤ 1) :
    flushNl3 pend = pend := by
  unfold flushNl3
  rw [if_neg]
  omega

theorem flushWs2_short {pend : List Char} (h : pend.length ≤ 1) :
    flushWs2 pend = pend := by
  unfold flushWs2
  rw [if_neg]
  omega

theorem subWsNlAux_id : ∀ (l pend : List Char), pend.length ≤ 1 →
    (pend ≠ [] → ∀ d, l.head? = some d → isPyWs d = false) →
    noAdjWs l = true → subWsNlAux pend l = pend ++ l
  | [], pend, hlen, _, _ => by
    simp [subWsNlAux, flushWsNl_short hlen]
  | c :: cs, pend, hlen, hhd, hadj => by
    unfold subWsNlAux
    split
    · next hws =>
      have hpend : pend = [] := by
        rcases pend with - | ⟨p, t⟩
        · rfl
        · exact absurd (hhd (by simp) c rfl) (by simp [hws])
      subst hpend
      have hnext : ∀ d, cs.head? = some d → isPyWs d = false := by
        intro d hd
        rcases cs with - | ⟨b, t⟩
        · simp at hd
        · simp only [List.head?_cons, Option.some.injEq] at hd
          subst hd
          exact noAdjWs_second hadj hws
      simp only [List.nil_append]
      rw [subWsNlAux_id cs [c] (by simp) (fun _ => hnext) (noAdjWs_tail hadj)]
      simp
    · next hws =>
      rw [flushWsNl_short hlen,
        subWsNlAux_id cs [] (by simp) (by simp) (noAdjWs_tail hadj)]
      rfl

theorem subWsNl_id {l : List Char} (h : noAdjWs l = true) : subWsNl l = l := by
  unfold subWsNl
  rw [subWsNlAux_id l [] (by simp) (by simp) h]
  rfl

theorem subNl3Aux_id : ∀ (l pend : List Char), pend.length ≤ 1 →
    (pend ≠ [] → ∀ d, l.head? = some d → (d == '\n') = false) →
    noAdjWs l = true → subNl3Aux pend l = pend ++ l
  | [], pend, hlen, _, _ => by
    simp [subNl3Aux, flushNl3_short hlen]
  | c :: cs, pend, hlen, hhd, hadj => by
    unfold subNl3Aux
    split
    · next hnl =>
      have hcnl : c = '\n' := by simpa using hnl
      have hpend : pend = [] := by
        rcases pend with - | ⟨p, t⟩
        · rfl
        · exact absurd (hhd (by simp) c rfl) (by simp [hnl])
      subst hpend
      have hnext : ∀ d, cs.head? = some d → (d == '\n') = false := by
        intro d hd
        rcases cs with - | ⟨b, t⟩
        · simp at hd
        · simp only [List.head?_cons, Option.some.injEq] at hd
          subst hd
          have hbws := noAdjWs_second hadj (by rw [hcnl]; decide)
          cases hx : (b == '\n')
          · rfl
          · exfalso
            have hb : b = '\n' := by simpa using hx
            rw [hb] at hbws
            simp [isPyWs] at hbws
      simp only [List.nil_append]
      rw [subNl3Aux_id cs [c] (by simp) (fun _ => hnext) (noAdjWs_tail hadj)]
      simp
    · rw [flushNl3_short hlen,
        subNl3Aux_id cs [] (by simp) (by simp) (noAdjWs_tail hadj)]
      rfl

theorem subNl3_id {l : List Char} (h : noAdjWs l = true) : subNl3 l = l := by
  unfold subNl3
  rw [subNl3Aux_id l [] (by simp) (by simp) h]
  rfl

theorem subWs2Aux_id : ∀ (l pend : List Char), pend.length ≤ 1 →
    (pend ≠ [] → ∀ d, l.head? = some d → isPyWs d = false) →
    noAdjWs l = true → subWs2Aux pend l = pend ++ l
  | [], pend, hlen, _, _ => by
    simp [subWs2Aux, flushWs2_short hlen]
  | c :: cs, pend, hlen, hhd, hadj => by
    unfold subWs2Aux
    split
    · next hws =>
      have hpend : pend = [] := by
        rcases pend with - | ⟨p, t⟩
        · rfl
        · exact absurd (hhd (by simp) c rfl) (by simp [hws])
      subst hpend
      have hnext : ∀ d, cs.head? = some d → isPyWs d = false := by
        intro d hd
        rcases cs with - | ⟨b, t⟩
        · simp at hd
        · simp only [List.head?_cons, Option.some.injEq] at hd
          subst hd
          exact noAdjWs_second hadj hws
      simp only [List.nil_append]
      rw [subWs2Aux_id cs [c] (by simp) (fun _ => hnext) (noAdjWs_tail hadj)]
      simp
    · rw [flushWs2_short hlen,
        subWs2Aux_id cs [] (by simp) (by simp) (noAdjWs_tail hadj)]
      rfl

theorem subWs2_id {l : List Char} (h : noAdjWs l = true) : subWs2 l = l := by
  unfold subWs2
  rw [subWs2Aux_id l [] (by simp) (by simp) h]
  rfl

/-- Members of `replaceNbsp l` are never the non-breaking space. -/
theorem replaceNbsp_no_nbsp {c : Char} {l : List Char}
    (hc : c ∈ replaceNbsp l) : c ≠ ' ' := by
  rcases List.mem_map.mp hc with ⟨b, _, hfb⟩
  subst hfb
  by_cases hb : b == ' '
  · rw [if_pos hb]; decide
  · rw [if_neg hb]
    intro hbn
    exact hb (by simp [hbn])

/-- Members of `subTabCr l` are never tab or carriage return, and are not
the non-breaking space provided `l` has none. -/
theorem subTabCr_no_special {c : Char} {l : List Char}
    (hc : c ∈ subTabCr l) (hl : ∀ b ∈ l, b ≠ ' ') :
    c ≠ ' ' ∧ c ≠ '\t' ∧ c ≠ '\r' := by
  rcases List.mem_map.mp hc with ⟨b, hb, hfb⟩
  subst hfb
  by_cases hbt : (b == '\t' || b == '\r') = true
  · rw [if_pos hbt]
    refine ⟨by decide, by decide, by decide⟩
  · rw [if_neg hbt]
    simp only [Bool.or_eq_true, not_or, Bool.not_eq_true, beq_eq_false_iff_ne] at hbt
    exact ⟨hl b hb, hbt.1, hbt.2⟩

/-- Characters that `_normalize_text_block` can never leave in its output:
the non-breaking space, tab and carriage return. -/
theorem normalize_no_special (s : String) :
    ∀ c ∈ (normalize_text_block s).data,
      c ≠ ' ' ∧ c ≠ '\t' ∧ c ≠ '\r' := by
  intro c hc
  unfold normalize_text_block at hc
  split at hc
  · simp at hc
  · have h1 := mem_stripL hc
    have h2 := mem_dropFootersAux _ _ h1
    rcases mem_subWs2Aux h2 with h3 | h3 | h3
    · exact absurd h3 (List.not_mem_nil c)
    · refine subTabCr_no_special h3 ?_
      intro b hb
      rcases mem_subNl3Aux hb with h4 | h4 | h4
      · exact absurd h4 (List.not_mem_nil b)
      · rcases mem_subWsNlAux h4 with h5 | h5 | h5
        · exact absurd h5 (List.not_mem_nil b)
        · exact replaceNbsp_no_nbsp h5
        · subst h5; decide
      · subst h4; decide
    · subst h3
      exact ⟨by decide, by decide, by decide⟩

theorem replaceNbsp_id {l : List Char} (h : ∀ c ∈ l, c ≠ ' ') :
    replaceNbsp l = l := by
  apply mapIdOn
  intro c hc
  rw [if_neg]
  simp [h c hc]

theorem subTabCr_id {l : List Char} (h : ∀ c ∈ l, c ≠ '\t' ∧ c ≠ '\r') :
    subTabCr l = l := by
  apply mapIdOn
  intro c hc
  rw [if_neg]
  simp [(h c hc).1, (h c hc).2]

/-- The output of `_normalize_text_block` is `strip`ped. -/
theorem normalize_stripped (s : String) :
    stripL (normalize_text_block s).data = (normalize_text_block s).data := by
  unfold normalize_text_block
  split
  · rfl
  · exact stripL_idem _

theorem headerScan_of_style {text : String} {bold : Bool} {size : Int}
    (hsty : bold = true ∨ 11 < size) :
    ∀ pats : List (String × List String),
      headerScan text bold size pats =
        (pats.find? (fun p => patternHit p.2 (pyLower text))).map
          (fun p => p.1)
  | [] => rfl
  | (tag, alts) :: rest => by
    unfold headerScan
    rw [List.find?_cons]
    by_cases hhit : patternHit alts (pyLower text) = true
    · rw [if_pos hhit, hhit]
      have : (bold || decide (11 < size)) = true := by
        rcases hsty with h | h
        · simp [h]
        · simp [h]
      rw [if_pos this]
      rfl
    · rw [if_neg hhit]
      have : patternHit (tag, alts).2 (pyLower text) = false := by
        simpa using hhit
      rw [this]
      exact headerScan_of_style hsty rest

theorem headerScan_no_style {text : String} {bold : Bool} {size : Int}
    (hb : bold = false) (hs : ¬ 11 < size) :
    ∀ pats : List (String × List String),
      headerScan text bold size pats = none
  | [] => rfl
  | (tag, alts) :: rest => by
    unfold headerScan
    by_cases hhit : patternHit alts (pyLower text) = true
    · rw [if_pos hhit, if_neg (by simp [hb, hs])]
      exact headerScan_no_style hb hs rest
    · rw [if_neg hhit]
      exact headerScan_no_style hb hs rest

theorem appendSection_keys (m : List (String × List String)) (k : String)
    (v : String) : (appendSection m k v).map Prod.fst = m.map Prod.fst := by
  unfold appendSection
  rw [List.map_map]
  apply List.map_congr_left
  intro kv _
  simp only [Function.comp_apply]
  split
  · rfl
  · rfl

theorem sectionStep_keys (st : SegState) (ln : SpanLine) :
    (sectionStep st ln).sections.map Prod.fst = st.sections.map Prod.fst := by
  unfold sectionStep
  dsimp only
  split
  · rfl
  · exact appendSection_keys _ _ _

theorem foldl_sectionStep_keys (lines : List SpanLine) :
    ∀ st : SegState,
      ((lines.foldl sectionStep st).sections).map Prod.fst =
        st.sections.map Prod.fst := by
  induction lines with
  | nil => intro st; rfl
  | cons ln rest ih =>
    intro st
    rw [List.foldl_cons, ih, sectionStep_keys]

theorem processPage_keys (pg : Page) (st : SegState) :
    ((processPage st pg).sections).map Prod.fst = st.sections.map Prod.fst := by
  unfold processPage
  generalize pageColumns pg = bs
  induction bs generalizing st with
  | nil => rfl
  | cons b rest ih =>
    rw [List.foldl_cons, ih, foldl_sectionStep_keys]

theorem collectState_keys (doc : Document) :
    ((collectState doc).sections).map Prod.fst =
      ["education", "experience", "skills", "projects", "certifications",
       "summary", "languages", "others"] := by
  unfold collectState
  have hbase :
      ∀ (ps : List Page) (st : SegState),
        ((ps.foldl processPage st).sections).map Prod.fst =
          st.sections.map Prod.fst := by
    intro ps
    induction ps with
    | nil => intro st; rfl
    | cons p rest ih =>
      intro st
      rw [List.foldl_cons, ih, processPage_keys]
  rw [hbase]
  rfl

theorem dedupCIGo_not_seen :
    ∀ {l seen : List String} {c : String}, c ∈ dedupCIGo seen l →
      seen.contains (pyLower c) = false
  | [], seen, c, h => absurd h (List.not_mem_nil c)
  | x :: xs, seen, c, h => by
    unfold dedupCIGo at h
    split at h
    · exact dedupCIGo_not_seen h
    · next hx =>
      rcases List.mem_cons.mp h with h' | h'
      · subst h'
        simpa using hx
      · have := dedupCIGo_not_seen h'
        simp only [List.contains_cons, Bool.or_eq_false_iff] at this
        exact this.2

theorem dedupCIGo_pairwise :
    ∀ (l seen : List String),
      (dedupCIGo seen l).Pairwise (fun a b => pyLower a ≠ pyLower b)
  | [], seen => List.Pairwise.nil
  | x :: xs, seen => by
    unfold dedupCIGo
    split
    · exact dedupCIGo_pairwise xs seen
    · refine List.Pairwise.cons ?_ (dedupCIGo_pairwise xs (pyLower x :: seen))
      intro b hb heq
      have := dedupCIGo_not_seen hb
      simp only [List.contains_cons, Bool.or_eq_false_iff] at this
      have h1 := this.1
      rw [← heq] at h1
      simp at h1

theorem dedupCIGo_sublist :
    ∀ (l seen : List String), (dedupCIGo seen l).Sublist l
  | [], seen => List.Sublist.refl []
  | x :: xs, seen => by
    unfold dedupCIGo
    split
    · exact (dedupCIGo_sublist xs seen).cons x
    · exact (dedupCIGo_sublist xs (pyLower x :: seen)).cons₂ x

theorem dedupCIGo_first :
    ∀ {l seen : List String} {c : String}, c ∈ dedupCIGo seen l →
      l.find? (fun x => pyLower x == pyLower c) = some c
  | [], seen, c, h => absurd h (List.not_mem_nil c)
  | x :: xs, seen, c, h => by
    unfold dedupCIGo at h
    split at h
    · next hx =>
      have hne : (pyLower x == pyLower c) = false := by
        have hc := dedupCIGo_not_seen h
        cases hxc : (pyLower x == pyLower c)
        · rfl
        · exfalso
          have : pyLower x = pyLower c := by simpa using hxc
          rw [this] at hx
          rw [hx] at hc
          cases hc
      rw [List.find?_cons, hne]
      exact dedupCIGo_first h
    · rcases List.mem_cons.mp h with h' | h'
      · subst h'
        rw [List.find?_cons]
        simp
      · have hc := dedupCIGo_not_seen h'
        simp only [List.contains_cons, Bool.or_eq_false_iff] at hc
        have hne : (pyLower x == pyLower c) = false := by
          cases hxc : (pyLower x == pyLower c)
          · rfl
          · exfalso
            have hxeq : pyLower x = pyLower c := by simpa using hxc
            have := hc.1
            rw [← hxeq] at this
            simp at this
        rw [List.find?_cons, hne]
        exact dedupCIGo_first h'

theorem mem_splitOnP {p : Char → Bool} :
    ∀ {l piece : List Char}, piece ∈ splitOnP p l →
      ∀ {c : Char}, c ∈ piece → c ∈ l
  | [], piece, hp, c, hc => by
    simp only [splitOnP, List.mem_singleton] at hp
    subst hp
    exact absurd hc (List.not_mem_nil c)
  | a :: l, piece, hp, c, hc => by
    unfold splitOnP at hp
    split at hp
    · rcases List.mem_cons.mp hp with h' | h'
      · subst h'
        exact absurd hc (List.not_mem_nil c)
      · exact List.mem_cons.mpr (Or.inr (mem_splitOnP h' hc))
    · revert hp
      split
      · next h t heq =>
        intro hp
        rcases List.mem_cons.mp hp with h' | h'
        · subst h'
          rcases List.mem_cons.mp hc with h'' | h''
          · simp [h'']
          · have hh : h ∈ splitOnP p l := by
              rw [heq]
              exact List.mem_cons_self h t
            exact List.mem_cons.mpr (Or.inr (mem_splitOnP hh h''))
        · have ht : piece ∈ splitOnP p l := by
            rw [heq]
            exact List.mem_cons.mpr (Or.inr h')
          exact List.mem_cons.mpr (Or.inr (mem_splitOnP ht hc))
      · next heq =>
        intro hp
        simp only [List.mem_singleton] at hp
        subst hp
        rcases List.mem_cons.mp hc with h'' | h''
        · simp [h'']
        · exact absurd h'' (List.not_mem_nil c)

/-! ### Experience-calculator lemmas -/

theorem dateLe_of_le_of_lt {a b c : PyDate} (h1 : dateLe a b = true)
    (h2 : dateLt b c = true) : dateLe a c = true := by
  simp only [dateLe, dateLt, decide_eq_true_eq] at h1 h2 ⊢
  omega

theorem firstSome_mem {α : Type} : ∀ {l : List (Option α)} {a : α},
    firstSome l = some a → some a ∈ l := by
  intro l
  induction l with
  | nil => intro a h; exact absurd h (by simp [firstSome])
  | cons x rest ih =>
    intro a h
    cases x with
    | some b =>
      have hb : some b = some a := h
      rw [← hb]
      exact List.mem_cons_self _ _
    | none => exact List.mem_cons_of_mem _ (ih h)

theorem parseMonthNum_le {cs : List Char} {mo : Nat} {rest : List Char}
    (h : parseMonthNum cs = some (mo, rest)) : mo ≤ 12 := by
  rcases cs with _ | ⟨c, _ | ⟨b, rest2⟩⟩
  · simp [parseMonthNum] at h
  · rw [parseMonthNum] at h
    split at h
    · simp only [Option.some.injEq, Prod.mk.injEq] at h
      omega
    · split at h
      · simp at h
      · split at h
        · rename_i hc
          simp only [isDigitCh, Bool.and_eq_true, decide_eq_true_eq] at hc
          simp only [Option.some.injEq, Prod.mk.injEq] at h
          omega
        · simp at h
  · rw [parseMonthNum] at h
    split at h
    · split at h
      · rename_i hb
        simp only [Bool.or_eq_true, beq_iff_eq] at hb
        have hb2 : b.toNat ≤ 50 := by
          rcases hb with (rfl | rfl) | rfl <;> decide
        simp only [Option.some.injEq, Prod.mk.injEq] at h
        omega
      · simp only [Option.some.injEq, Prod.mk.injEq] at h
        omega
    · split at h
      · split at h
        · rename_i hb
          simp only [isDigitCh, Bool.and_eq_true, decide_eq_true_eq] at hb
          simp only [Option.some.injEq, Prod.mk.injEq] at h
          omega
        · simp at h
      · split at h
        · rename_i hc
          simp only [isDigitCh, Bool.and_eq_true, decide_eq_true_eq] at hc
          simp only [Option.some.injEq, Prod.mk.injEq] at h
          omega
        · simp at h

theorem parseMonthYear_shape {tbl : List (String × Nat)} {cs : List Char}
    {dt : PyDate} (hall : ∀ p ∈ tbl, p.2 ≤ 12)
    (h : parseMonthYear tbl cs = some dt) : dt.d = 1 ∧ dt.m ≤ 12 := by
  unfold parseMonthYear at h
  rcases List.mem_map.mp (firstSome_mem h) with ⟨p, hp, hf⟩
  split at hf
  · simp at hf
  · split at hf
    · simp at hf
    · split at hf
      · split at hf
        · simp at hf
        · injection hf with hf2
          subst hf2
          exact ⟨rfl, hall p hp⟩
      · simp at hf

theorem parseNumYear_shape {sep : Char} {cs : List Char} {dt : PyDate}
    (h : parseNumYear sep cs = some dt) : dt.d = 1 ∧ dt.m ≤ 12 := by
  unfold parseNumYear at h
  split at h
  · rename_i mo c rest heq
    split at h
    · split at h
      · split at h
        · simp at h
        · injection h with h2
          subst h2
          exact ⟨rfl, parseMonthNum_le heq⟩
      · simp at h
    · simp at h
  · simp at h

theorem parseYearOnly_shape {cs : List Char} {dt : PyDate}
    (h : parseYearOnly cs = some dt) : dt.d = 1 ∧ dt.m ≤ 12 := by
  unfold parseYearOnly at h
  split at h
  · split at h
    · simp at h
    · injection h with h2
      subst h2
      refine ⟨rfl, ?_⟩
      show (1 : Nat) ≤ 12
      decide
  · simp at h

theorem parse_date_shape : ∀ {s : String} {dt : PyDate},
    parse_date s = some dt → dt.d = 1 ∧ dt.m ≤ 12 := by
  intro s dt h
  unfold parse_date at h
  split at h
  · rename_i dt0 heq
    injection h with h2
    subst h2
    exact parseMonthYear_shape (by decide) heq
  · split at h
    · rename_i dt0 heq
      injection h with h2
      subst h2
      exact parseMonthYear_shape (by decide) heq
    · split at h
      · rename_i dt0 heq
        injection h with h2
        subst h2
        exact parseNumYear_shape heq
      · split at h
        · rename_i dt0 heq
          injection h with h2
          subst h2
          exact parseNumYear_shape heq
        · exact parseYearOnly_shape h

theorem resolveEnd_day {now : PyDate} {es : String} {ed : PyDate}
    (hd : 1 ≤ now.d) (h : resolveEnd now es = some ed) : 1 ≤ ed.d := by
  unfold resolveEnd at h
  split at h
  · injection h with h2
    subst h2
    exact hd
  · have := (parse_date_shape h).1
    omega

theorem intervalOfPair_inv {now : PyDate} {p : String × String}
    {sd ed : PyDate} (h : intervalOfPair now p = some (sd, ed)) :
    parse_date (pyStrip p.1) = some sd ∧
    resolveEnd now (pyStrip p.2) = some ed ∧
    dateLe sd ed = true ∧ ¬ sd.y < 1980 ∧
    ¬ 20 < (ed.y : Int) - (sd.y : Int) := by
  unfold intervalOfPair at h
  split at h
  · rename_i sd2 ed2 heq1 heq2
    split at h
    · rename_i hle
      split at h
      · simp at h
      · rename_i h80
        split at h
        · simp at h
        · rename_i h20
          simp only [Option.some.injEq, Prod.mk.injEq] at h
          obtain ⟨rfl, rfl⟩ := h
          exact ⟨heq1, heq2, hle, h80, h20⟩
    · simp at h
  · simp at h

theorem keptIntervals_inv {now : PyDate} {text : String} (hd : 1 ≤ now.d) :
    ∀ pr ∈ keptIntervals now text,
      dateLe pr.1 pr.2 = true ∧ pr.1.d = 1 ∧ pr.1.m ≤ 12 ∧ 1 ≤ pr.2.d := by
  intro pr hpr
  rcases List.mem_filterMap.mp hpr with ⟨p, -, hp⟩
  obtain ⟨sd, ed⟩ := pr
  have hv := intervalOfPair_inv hp
  have hs := parse_date_shape hv.1
  exact ⟨hv.2.2.1, hs.1, hs.2, resolveEnd_day hd hv.2.1⟩

theorem mem_insertStable {α : Type} {le : α → α → Bool} {x a : α} :
    ∀ {l : List α}, a ∈ insertStable le x l → a = x ∨ a ∈ l := by
  intro l
  induction l with
  | nil =>
    intro h
    simp [insertStable] at h
    exact Or.inl h
  | cons y ys ih =>
    intro h
    unfold insertStable at h
    split at h
    · rcases List.mem_cons.mp h with rfl | h2
      · exact Or.inr (List.mem_cons_self _ _)
      · rcases ih h2 with rfl | h3
        · exact Or.inl rfl
        · exact Or.inr (List.mem_cons_of_mem _ h3)
    · rcases List.mem_cons.mp h with rfl | h2
      · exact Or.inl rfl
      · exact Or.inr h2

theorem length_insertStable {α : Type} (le : α → α → Bool) (x : α) :
    ∀ (l : List α), (insertStable le x l).length = l.length + 1 := by
  intro l
  induction l with
  | nil => rfl
  | cons y ys ih =>
    unfold insertStable
    split
    · simp [ih]
    · simp

theorem mem_foldl_insertStable {α : Type} {le : α → α → Bool} {a : α} :
    ∀ (l acc : List α),
      a ∈ l.foldl (fun acc x => insertStable le x acc) acc →
      a ∈ acc ∨ a ∈ l := by
  intro l
  induction l with
  | nil => intro acc h; exact Or.inl h
  | cons x xs ih =>
    intro acc h
    rcases ih _ h with h2 | h2
    · rcases mem_insertStable h2 with rfl | h3
      · exact Or.inr (List.mem_cons_self _ _)
      · exact Or.inl h3
    · exact Or.inr (List.mem_cons_of_mem _ h2)

theorem mem_stableSortBy {α : Type} {le : α → α → Bool} {a : α}
    {l : List α} (h : a ∈ stableSortBy le l) : a ∈ l := by
  rcases mem_foldl_insertStable l [] h with h2 | h2
  · simp at h2
  · exact h2

theorem length_foldl_insertStable {α : Type} (le : α → α → Bool) :
    ∀ (l acc : List α),
      (l.foldl (fun acc x => insertStable le x acc) acc).length =
        acc.length + l.length := by
  intro l
  induction l with
  | nil => intro acc; simp
  | cons x xs ih =>
    intro acc
    rw [List.foldl_cons, ih, length_insertStable]
    simp only [List.length_cons]
    omega

theorem length_stableSortBy {α : Type} (le : α → α → Bool) (l : List α) :
    (stableSortBy le l).length = l.length := by
  unfold stableSortBy
  rw [length_foldl_insertStable]
  simp

theorem mergeSweep_ne_nil :
    ∀ (l : List (PyDate × PyDate)) (cur : PyDate × PyDate),
      mergeSweep cur l ≠ [] := by
  intro l
  induction l with
  | nil => intro cur h; simp [mergeSweep] at h
  | cons nxt rest ih =>
    intro cur h
    unfold mergeSweep at h
    split at h
    · exact ih _ h
    · simp at h

theorem mergeSweep_inv :
    ∀ (l : List (PyDate × PyDate)) (cur : PyDate × PyDate),
      (dateLe cur.1 cur.2 = true ∧ cur.1.d = 1 ∧ cur.1.m ≤ 12 ∧ 1 ≤ cur.2.d) →
      (∀ x ∈ l, dateLe x.1 x.2 = true ∧ x.1.d = 1 ∧ x.1.m ≤ 12 ∧ 1 ≤ x.2.d) →
      ∀ x ∈ mergeSweep cur l,
        dateLe x.1 x.2 = true ∧ x.1.d = 1 ∧ x.1.m ≤ 12 ∧ 1 ≤ x.2.d := by
  intro l
  induction l with
  | nil =>
    intro cur hc _ x hx
    unfold mergeSweep at hx
    rcases List.mem_singleton.mp hx with rfl
    exact hc
  | cons nxt rest ih =>
    intro cur hc hl x hx
    unfold mergeSweep at hx
    split at hx
    · refine ih (cur.1, if dateLt cur.2 nxt.2 = true then nxt.2 else cur.2)
        ⟨?_, hc.2.1, hc.2.2.1, ?_⟩
        (fun y hy => hl y (List.mem_cons_of_mem _ hy)) x hx
      · show dateLe cur.1 (if dateLt cur.2 nxt.2 = true then nxt.2 else cur.2) = true
        split
        · rename_i hlt
          exact dateLe_of_le_of_lt hc.1 hlt
        · exact hc.1
      · show 1 ≤ (if dateLt cur.2 nxt.2 = true then nxt.2 else cur.2).d
        split
        · exact (hl nxt (List.mem_cons_self _ _)).2.2.2
        · exact hc.2.2.2
    · rcases List.mem_cons.mp hx with rfl | hx2
      · exact hc
      · exact ih _ (hl nxt (List.mem_cons_self _ _))
          (fun y hy => hl y (List.mem_cons_of_mem _ hy)) x hx2

theorem mergedIntervals_inv {now : PyDate} {text : String} (hd : 1 ≤ now.d) :
    ∀ pr ∈ mergedIntervals now text,
      dateLe pr.1 pr.2 = true ∧ pr.1.d = 1 ∧ pr.1.m ≤ 12 ∧ 1 ≤ pr.2.d := by
  intro pr hpr
  unfold mergedIntervals at hpr
  split at hpr
  · simp at hpr
  · rename_i c rest hsort
    have hmem : ∀ x ∈ c :: rest,
        dateLe x.1 x.2 = true ∧ x.1.d = 1 ∧ x.1.m ≤ 12 ∧ 1 ≤ x.2.d := by
      intro x hx
      have hx2 : x ∈ stableSortBy (fun a b => dateLe a.1 b.1)
          (keptIntervals now text) := by
        rw [hsort]
        exact hx
      exact keptIntervals_inv hd x (mem_stableSortBy hx2)
    exact mergeSweep_inv rest c (hmem c (List.mem_cons_self _ _))
      (fun y hy => hmem y (List.mem_cons_of_mem _ hy)) pr hpr

theorem mergedIntervals_ne_nil {now : PyDate} {text : String}
    (h : keptIntervals now text ≠ []) : mergedIntervals now text ≠ [] := by
  unfold mergedIntervals
  split
  · rename_i hsort
    exfalso
    have hlen := length_stableSortBy (fun a b => dateLe a.1 b.1)
      (keptIntervals now text)
    rw [hsort] at hlen
    exact h (List.length_eq_zero.mp hlen.symm)
  · exact mergeSweep_ne_nil _ _

theorem earliestStart_mem {now : PyDate} {text : String}
    (h : keptIntervals now text ≠ []) :
    ∃ pr ∈ mergedIntervals now text, pr.1 = earliestStart now text := by
  unfold earliestStart
  split
  · rename_i hm
    exact absurd hm (mergedIntervals_ne_nil h)
  · rename_i pr rest hm
    refine ⟨pr, ?_, rfl⟩
    rw [hm]
    exact List.mem_cons_self _ _

theorem monthsBetween_eq_raw {a b : PyDate} (h : dateLe b a = true)
    (hbd : b.d = 1) (had : 1 ≤ a.d) : monthsBetween a b = rawMonths a b := by
  have h1 : dateLt a b = false := by
    simp only [dateLe, decide_eq_true_eq] at h
    simp only [dateLt, decide_eq_false_iff_not]
    omega
  have h2 : ¬ a.d < min b.d (daysInMonth a.y a.m) := by
    have h3 := Nat.min_le_left b.d (daysInMonth a.y a.m)
    omega
  unfold monthsBetween
  rw [h1]
  simp [h2]

theorem monthsBetween_nonneg {a b : PyDate} (h : dateLe b a = true)
    (hbd : b.d = 1) (hbm : b.m ≤ 12) (had : 1 ≤ a.d) :
    0 ≤ monthsBetween a b := by
  rw [monthsBetween_eq_raw h hbd had]
  simp only [dateLe, decide_eq_true_eq] at h
  unfold rawMonths
  omega

theorem rawTotal_nonneg {now : PyDate} {text : String} (hd : 1 ≤ now.d) :
    0 ≤ rawTotal now text := by
  unfold rawTotal
  refine List.sum_nonneg ?_
  intro v hv
  rcases List.mem_map.mp hv with ⟨pr, hpr, rfl⟩
  have hq := mergedIntervals_inv hd pr hpr
  exact monthsBetween_nonneg hq.1 hq.2.1 hq.2.2.1 hq.2.2.2

/-! ## Claims -/

/-- Claim C3, counterexample: `_normalize_text_block` is *not* idempotent.
On `"a\nPage 1 of 2\nb"` the footer-removal step (the last substitution)
leaves an empty line behind, producing `"a\n\nb"`; a second application
collapses the double newline to `"a\nb"`. -/
theorem normalize_text_block_not_idempotent :
    ¬ (∀ s : String,
        normalize_text_block (normalize_text_block s) =
          normalize_text_block s) := by
  intro h
  have := h "a\nPage 1 of 2\nb"
  rw [show normalize_text_block "a\nPage 1 of 2\nb" = "a\n\nb" from by decide]
    at this
  exact absurd this (by decide)

/-- Claim C3 (amended): `_normalize_text_block` is idempotent on every
input whose normalized form contains no two adjacent whitespace
characters and is left unchanged by the footer-removal pass — i.e. on
every input where the `Page N of M` footer removal does not fire (footer
removal is the only step that can leave adjacent whitespace behind). -/
theorem normalize_text_block_idempotent (s : String)
    (h1 : noAdjWs (normalize_text_block s).data = true)
    (h2 : dropFooters (normalize_text_block s).data =
      (normalize_text_block s).data) :
    normalize_text_block (normalize_text_block s) = normalize_text_block s := by
  rcases hy : normalize_text_block s with ⟨ydata⟩
  rw [hy] at h1 h2
  rcases ydata with - | ⟨c, cs⟩
  · rfl
  · have hspecial : ∀ c' ∈ (String.mk (c :: cs)).data,
        c' ≠ ' ' ∧ c' ≠ '\t' ∧ c' ≠ '\r' := by
      rw [← hy]
      exact normalize_no_special s
    unfold normalize_text_block
    rw [if_neg (by simp)]
    rw [show (String.mk (c :: cs)).data = c :: cs from rfl] at h1 h2 hspecial ⊢
    rw [replaceNbsp_id (fun c' hc' => (hspecial c' hc').1)]
    rw [subWsNl_id h1]
    rw [subNl3_id h1]
    rw [subTabCr_id (fun c' hc' => ⟨(hspecial c' hc').2.1, (hspecial c' hc').2.2⟩)]
    rw [subWs2_id h1]
    rw [h2]
    have hstrip := normalize_stripped s
    rw [hy] at hstrip
    rw [show (String.mk (c :: cs)).data = c :: cs from rfl] at hstrip
    rw [hstrip]

/-- Claim C3, witness for the amended idempotence theorem at a concrete
input. -/
theorem normalize_text_block_idempotent_witness :
    normalize_text_block (normalize_text_block " some  resume\ttext \n line ") =
      normalize_text_block " some  resume\ttext \n line " :=
  normalize_text_block_idempotent " some  resume\ttext \n line "
    (by decide) (by decide)

/-- Claim C2, counterexample: a bold 12pt line `Skills` (one word,
matching the skills pattern) does switch `current_section` to `skills`,
but the header line itself IS appended to that section's content — the
source has no `continue` after the transition, so the skills section of
`docSkills` reads `"Skills\nPython"`, with the header line as its first
line.  This refutes the claim that the header line is not appended to
any section's content. -/
theorem section_header_line_in_content :
    headerTag "Skills" true 12 = some "skills" ∧
    List.lookup "skills" (extract_sections_with_pymupdf docSkills) =
      some "Skills\nPython" := by decide

/-- Claim C2 (amended): in the primary column-aware segmenter, for every
non-empty line with at most 7 words that matches a section-header
pattern (the first matching entry of `SECTION_PATTERNS`) and is bold or
has font size above 11pt, `current_section` transitions to the matched
tag and the header line itself is appended as content of that new
section (it is not skipped); every other non-empty line is appended to
the unchanged current section. -/
theorem sectionStep_spec (st : SegState) (ln : SpanLine) :
    (∀ tag alts, lineTextOf ln ≠ "" → countWords (lineTextOf ln) ≤ 7 →
      SECTION_PATTERNS.find?
          (fun p => patternHit p.2 (pyLower (lineTextOf ln))) =
        some (tag, alts) →
      (lineBoldOf ln = true ∨ 11 < lineSizeOf ln) →
      sectionStep st ln =
        { current := tag,
          sections := appendSection st.sections tag (lineTextOf ln) }) ∧
    (lineTextOf ln ≠ "" →
      (7 < countWords (lineTextOf ln) ∨
       SECTION_PATTERNS.find?
           (fun p => patternHit p.2 (pyLower (lineTextOf ln))) = none ∨
       (lineBoldOf ln = false ∧ lineSizeOf ln ≤ 11)) →
      sectionStep st ln =
        { current := st.current,
          sections := appendSection st.sections st.current (lineTextOf ln) }) := by
  constructor
  · intro tag alts hne h7 hfind hsty
    unfold sectionStep
    dsimp only
    rw [if_neg hne]
    have htag : headerTag (lineTextOf ln) (lineBoldOf ln) (lineSizeOf ln) =
        some tag := by
      unfold headerTag
      rw [if_pos h7, headerScan_of_style hsty SECTION_PATTERNS, hfind]
      rfl
    rw [htag]
  · intro hne hcase
    unfold sectionStep
    dsimp only
    rw [if_neg hne]
    have htag : headerTag (lineTextOf ln) (lineBoldOf ln) (lineSizeOf ln) =
        none := by
      unfold headerTag
      rcases hcase with h | h | h
      · rw [if_neg (by omega)]
      · by_cases h7 : countWords (lineTextOf ln) ≤ 7
        · rw [if_pos h7]
          by_cases hsty : lineBoldOf ln = true ∨ 11 < lineSizeOf ln
          · rw [headerScan_of_style hsty SECTION_PATTERNS, h]
            rfl
          · push_neg at hsty
            exact headerScan_no_style (by simpa using hsty.1)
              (not_lt.mpr hsty.2) SECTION_PATTERNS
        · rw [if_neg h7]
      · by_cases h7 : countWords (lineTextOf ln) ≤ 7
        · rw [if_pos h7]
          exact headerScan_no_style h.1 (not_lt.mpr h.2) SECTION_PATTERNS
        · rw [if_neg h7]
    rw [htag]

/-- Claim C2, witness: the amended step behaviour applied at the
concrete `Skills` header line (appended to the new `skills` section) and
at the `Python` body line (appended to the current section). -/
theorem sectionStep_spec_witness :
    sectionStep { current := "others", sections := initSections }
        { spans := [{ text := "Skills", font := "Arial-Bold", size := 12 }] } =
      { current := "skills",
        sections := appendSection initSections "skills" "Skills" } ∧
    sectionStep { current := "skills", sections := initSections }
        { spans := [{ text := "Python", font := "Arial", size := 10 }] } =
      { current := "skills",
        sections := appendSection initSections "skills" "Python" } := by
  constructor
  · exact (sectionStep_spec _ _).1 "skills"
      ["skills", "skills", "technical skills", "key skills", "competencies",
       "expertise", "technologies", "key skills ", "skills and expertise",
       "core skills", "skills", "skills"]
      (by decide) (by decide) (by decide) (Or.inl (by decide))
  · exact (sectionStep_spec _ _).2 (by decide) (Or.inr (Or.inl (by decide)))

/-- Claim C8, counterexample: on the empty document the primary
segmenter's key list is the eight tags education, experience, skills,
projects, certifications, summary, languages, others — there is no
`personal` key, refuting the claimed nine-tag key set. -/
theorem extract_sections_no_personal_key :
    (extract_sections_with_pymupdf []).map Prod.fst =
      ["education", "experience", "skills", "projects", "certifications",
       "summary", "languages", "others"] ∧
    ((extract_sections_with_pymupdf []).map Prod.fst).contains "personal" =
      false := by decide

/-- Claim C8 (amended): for every document the primary segmenter returns
a mapping whose key list is exactly the eight fixed tags (education,
experience, skills, projects, certifications, summary, languages,
others — no `personal` tag), each tag mapped to its whitespace-cleaned
non-empty lines joined by newline. -/
theorem extract_sections_shape (doc : Document) :
    (extract_sections_with_pymupdf doc).map Prod.fst =
      ["education", "experience", "skills", "projects", "certifications",
       "summary", "languages", "others"] ∧
    extract_sections_with_pymupdf doc =
      (collectState doc).sections.map (fun kv => (kv.1,
        String.intercalate "\n"
          ((kv.2.map cleanWsLine).filter (fun l => !(l == ""))))) := by
  constructor
  · show ((collectState doc).sections.map _).map Prod.fst = _
    rw [List.map_map]
    exact collectState_keys doc
  · rfl

/-- Claim C7: for every input text the skill extractor's output is
de-duplicated case-insensitively and order-preserving: no two output
elements agree after lower-casing, the output is a subsequence of the
candidate stream, each output element is the *first* candidate carrying
its lower-cased key, and the tokens `Python`, `python`, `PYTHON`
collapse to the single forced-casing output `PYTHON`. -/
theorem extract_skills_dedup (text : String) :
    (extract_skills text).Pairwise (fun a b => pyLower a ≠ pyLower b) ∧
    (extract_skills text).Sublist (skillCandidates text) ∧
    (∀ c ∈ extract_skills text,
      (skillCandidates text).find? (fun x => pyLower x == pyLower c) =
        some c) ∧
    extract_skills "Python, python, PYTHON" = ["PYTHON"] := by
  refine ⟨dedupCIGo_pairwise _ [], dedupCIGo_sublist _ [],
    fun c hc => dedupCIGo_first hc, by decide⟩

/-- Claim C7, witness: the first-occurrence property applied at the
concrete input (the sole output element `PYTHON` is the first candidate
with key `python`). -/
theorem extract_skills_dedup_witness :
    (skillCandidates "Python, python, PYTHON").find?
        (fun x => pyLower x == pyLower "PYTHON") = some "PYTHON" :=
  (extract_skills_dedup "Python, python, PYTHON").2.2.1 "PYTHON" (by decide)

/-- Claim C10: for every input string that is empty or contains only
whitespace, every line strips to empty, so `extract_name` takes its
early exit and returns the literal `"Unknown"`. -/
theorem extract_name_whitespace (s : String)
    (h : ∀ c ∈ s.data, isPyWs c = true) :
    extract_name s = "Unknown" := by
  have hlines : ((((splitNl s).map pyRstrip).map pyStrip).filter
      (fun l => !(l == ""))) = [] := by
    rw [List.filter_eq_nil_iff]
    intro x hx
    rcases List.mem_map.mp hx with ⟨y, hy, hxy⟩
    rcases List.mem_map.mp hy with ⟨z, hz, hyz⟩
    rcases List.mem_map.mp hz with ⟨piece, hpiece, hzp⟩
    have hws : ∀ c ∈ piece, isPyWs c = true := fun c hc =>
      h c (mem_splitOnP hpiece hc)
    subst hzp hyz hxy
    have h1 : ∀ c ∈ (pyRstrip (String.mk piece)).data, isPyWs c = true := by
      intro c hc
      apply hws
      unfold pyRstrip rstripL at hc
      rw [List.mem_reverse] at hc
      have hm := (List.dropWhile_sublist isPyWs).mem hc
      rwa [List.mem_reverse] at hm
    have h2 : stripL (pyRstrip (String.mk piece)).data = [] := by
      unfold stripL lstripL
      rw [List.dropWhile_eq_nil_iff.mpr (fun x hx => h1 x hx)]
      rfl
    simp [pyStrip, h2]
  unfold extract_name
  dsimp only
  rw [show (((splitNl s).map pyRstrip).map pyStrip).filter
      (fun l => !(l == "")) = [] from hlines]
  rfl

/-- Claim C10, witness: `extract_name` on a concrete whitespace-only
string. -/
theorem extract_name_whitespace_witness :
    extract_name "  \n\t \x0c " = "Unknown" :=
  extract_name_whitespace "  \n\t \x0c " (by decide)

/-- Claim C4: every interval kept by the experience calculator satisfies
end ≥ start, start year ≥ 1980 and end year − start year ≤ 20 (so any
parsed interval violating one of these is discarded and contributes
nothing), and in particular the texts `"1975 - 1976"` and `"1990 - 2015"`
yield no surviving interval: the result is `"0 years and 0 months"` for
every current date. -/
theorem experience_interval_filter :
    (∀ (now : PyDate) (text : String) (sd ed : PyDate),
      (sd, ed) ∈ keptIntervals now text →
        dateLe sd ed = true ∧ 1980 ≤ sd.y ∧
        (ed.y : Int) - (sd.y : Int) ≤ 20) ∧
    (∀ now : PyDate,
      calculate_total_experience now "1975 - 1976" = "0 years and 0 months") ∧
    (∀ now : PyDate,
      calculate_total_experience now "1990 - 2015" = "0 years and 0 months") := by
  refine ⟨?_, fun now => rfl, fun now => rfl⟩
  intro now text sd ed h
  rcases List.mem_filterMap.mp h with ⟨p, -, hp⟩
  have hv := intervalOfPair_inv hp
  refine ⟨hv.2.2.1, ?_, ?_⟩
  · have := hv.2.2.2.1
    omega
  · have := hv.2.2.2.2
    omega

/-- Claim C4, witness: the single interval kept from
`"Jan 2019 to Jun 2020"` satisfies the three invariants. -/
theorem experience_interval_filter_witness :
    dateLe ⟨2019, 1, 1⟩ ⟨2020, 6, 1⟩ = true ∧
    1980 ≤ (⟨2019, 1, 1⟩ : PyDate).y ∧
    ((⟨2020, 6, 1⟩ : PyDate).y : Int) - ((⟨2019, 1, 1⟩ : PyDate).y : Int) ≤ 20 :=
  experience_interval_filter.1 ⟨2026, 10, 12⟩ "Jan 2019 to Jun 2020"
    ⟨2019, 1, 1⟩ ⟨2020, 6, 1⟩ (by decide)

/-- Claim C5: the sweep extends the current merged interval whenever the
next sorted start does not pass the current end (pushing the end forward
when the next end is later) and otherwise emits and restarts; the two
ranges `Jan 2019 – Jun 2020` and `Mar 2020 – Dec 2021` merge into the
single span Jan 2019 – Dec 2021, and (for any current date not before
Dec 2021 with month and day at least 1, as for a real `datetime.now()`)
the summed result is `"2 years and 11 months"`. -/
theorem experience_merge_sum :
    (∀ (cur nxt : PyDate × PyDate) (rest : List (PyDate × PyDate)),
      mergeSweep cur (nxt :: rest) =
        if dateLe nxt.1 cur.2 = true then
          mergeSweep (cur.1, if dateLt cur.2 nxt.2 = true then nxt.2 else cur.2)
            rest
        else cur :: mergeSweep nxt rest) ∧
    (∀ now : PyDate,
      mergedIntervals now "Jan 2019 to Jun 2020\nMar 2020 to Dec 2021" =
        [(⟨2019, 1, 1⟩, ⟨2021, 12, 1⟩)]) ∧
    (∀ now : PyDate, 1 ≤ now.m → 1 ≤ now.d →
      dateLe ⟨2021, 12, 1⟩ now = true →
      calculate_total_experience now
        "Jan 2019 to Jun 2020\nMar 2020 to Dec 2021" =
        "2 years and 11 months") := by
  refine ⟨fun cur nxt rest => rfl, fun now => rfl, ?_⟩
  intro now hm hd hle
  have h1 : calculate_total_experience now
      "Jan 2019 to Jun 2020\nMar 2020 to Dec 2021" =
      renderExp (min (min 35 (monthsBetween now ⟨2019, 1, 1⟩)) 600) := rfl
  have hb : dateLe ⟨2019, 1, 1⟩ now = true := by
    simp only [dateLe, decide_eq_true_eq] at hle ⊢
    omega
  have h2 : monthsBetween now ⟨2019, 1, 1⟩ = rawMonths now ⟨2019, 1, 1⟩ :=
    monthsBetween_eq_raw hb rfl hd
  have h3 : 35 ≤ monthsBetween now ⟨2019, 1, 1⟩ := by
    rw [h2]
    simp only [dateLe, decide_eq_true_eq] at hle
    simp only [rawMonths]
    omega
  have h4 : min (min 35 (monthsBetween now ⟨2019, 1, 1⟩)) 600 = (35 : Int) := by
    omega
  rw [h1, h4]
  rfl

/-- Claim C5, witness: the concrete computation at a fixed current
date. -/
theorem experience_merge_sum_witness :
    calculate_total_experience ⟨2026, 10, 12⟩
      "Jan 2019 to Jun 2020\nMar 2020 to Dec 2021" = "2 years and 11 months" :=
  experience_merge_sum.2.2 ⟨2026, 10, 12⟩ (by decide) (by decide) (by decide)

/-- Claim C6: whenever any interval survives the filters, the output is
rendered from `min (min total maxMonths) 600`, where `total` is the raw
merged sum and `maxMonths` the elapsed months from the earliest merged
start to the current date — i.e. the total is capped both by real
elapsed time and by 50 years, and the capped value determines the output
string.  Two concrete caps: a half-future resume is capped by elapsed
time (136 raw months → 93), and a 657-month history is capped at 600 →
`"50 years and 0 months"`. -/
theorem experience_total_cap :
    (∀ (now : PyDate) (text : String), keptIntervals now text ≠ [] →
      calculate_total_experience now text =
        renderExp (min (min (rawTotal now text)
          (monthsBetween now (earliestStart now text))) 600)) ∧
    calculate_total_experience ⟨2026, 10, 12⟩
      "Jan 2019 - Dec 2019 and Jan 2030 - Jun 2040" = "7 years and 9 months" ∧
    calculate_total_experience ⟨2035, 1, 1⟩
      "Jan 1980 to Dec 1999, Jan 2000 to Dec 2019, Jan 2020 to Dec 2034" =
      "50 years and 0 months" := by
  refine ⟨?_, rfl, rfl⟩
  intro now text h
  unfold calculate_total_experience
  rw [if_neg h]

/-- Claim C6, witness: the cap identity at a concrete date and text. -/
theorem experience_total_cap_witness :
    calculate_total_experience ⟨2026, 10, 12⟩ "Jan 2019 to Jun 2020" =
      renderExp (min (min (rawTotal ⟨2026, 10, 12⟩ "Jan 2019 to Jun 2020")
        (monthsBetween ⟨2026, 10, 12⟩
          (earliestStart ⟨2026, 10, 12⟩ "Jan 2019 to Jun 2020"))) 600) :=
  experience_total_cap.1 ⟨2026, 10, 12⟩ "Jan 2019 to Jun 2020" (by decide)

/-- Claim C9, counterexample: the output components are NOT always
non-negative.  A resume whose only range lies in the future (relative to
the fixed current date 2026-10-12) passes every filter, and the
elapsed-time cap `min` then selects the negative months-to-now value:
Python's floor division renders it as negative years with a positive
months remainder. -/
theorem experience_negative_output :
    calculate_total_experience ⟨2026, 10, 12⟩ "Jan 2040 - Dec 2040" =
      "-14 years and 10 months" := by decide

/-- Claim C9, amended: for every text and every current date with a
valid day component, the output is exactly
`"{years} years and {months} months"` with `0 ≤ months ≤ 11` and
`years ≤ 50`; `years` is moreover non-negative whenever the earliest
merged start does not lie in the future (which the original claim
implicitly assumed). -/
theorem experience_output_shape (now : PyDate) (text : String)
    (hd : 1 ≤ now.d) :
    ∃ years months : Int,
      calculate_total_experience now text =
        s!"{years} years and {months} months" ∧
      0 ≤ months ∧ months ≤ 11 ∧ years ≤ 50 ∧
      (dateLe (earliestStart now text) now = true → 0 ≤ years) := by
  by_cases hk : keptIntervals now text = []
  · refine ⟨0, 0, ?_, by omega, by omega, by omega, fun _ => by omega⟩
    unfold calculate_total_experience
    rw [if_pos hk]
    rfl
  · refine ⟨(min (min (rawTotal now text)
        (monthsBetween now (earliestStart now text))) 600) / 12,
      (min (min (rawTotal now text)
        (monthsBetween now (earliestStart now text))) 600) % 12,
      ?_, ?_, ?_, ?_, ?_⟩
    · unfold calculate_total_experience
      rw [if_neg hk]
      rfl
    · exact Int.emod_nonneg _ (by omega)
    · have := Int.emod_lt_of_pos (min (min (rawTotal now text)
        (monthsBetween now (earliestStart now text))) 600)
        (show (0 : Int) < 12 by omega)
      omega
    · have h1 : min (min (rawTotal now text)
          (monthsBetween now (earliestStart now text))) 600 ≤ (600 : Int) :=
        min_le_right _ _
      have h2 := Int.ediv_le_ediv (show (0 : Int) < 12 by omega) h1
      have h3 : (600 : Int) / 12 = 50 := by decide
      omega
    · intro hle
      have h1 : 0 ≤ rawTotal now text := rawTotal_nonneg hd
      have h2 : 0 ≤ monthsBetween now (earliestStart now text) := by
        rcases earliestStart_mem hk with ⟨pr, hpr, hpr1⟩
        have hq := mergedIntervals_inv hd pr hpr
        have hble : dateLe pr.1 now = true := by
          rw [hpr1]
          exact hle
        rw [← hpr1]
        exact monthsBetween_nonneg hble hq.2.1 hq.2.2.1 hd
      have h3 : (0 : Int) ≤ min (min (rawTotal now text)
          (monthsBetween now (earliestStart now text))) 600 := by
        omega
      exact Int.ediv_nonneg h3 (by omega)

/-- Claim C1, counterexample: an exception whose message is empty (e.g.
`raise ValueError()` — `str(e)` is then `""`) yields a fallback record
whose `error` field is the EMPTY string, contradicting the claimed
"non-empty error string". -/
theorem process_resume_empty_error :
    (process_resume (Except.error "")).error = some "" := rfl

/-- Claim C1, amended: `process_resume` is total over every pipeline
outcome (the exception is absorbed, never propagated); on an exception
with message `msg` it returns exactly the fixed fallback record — name
`"Unknown"`, all contact fields null, `skills = []`,
`total_experience = "0 years and 0 months"` — with `error = str(e)`,
which is empty exactly when the exception's message is empty; on success
a falsy (empty) `total_exp` is replaced by the zero-experience string. -/
theorem process_resume_fallback :
    (∀ msg : String,
      process_resume (Except.error msg) =
        { personalInfo :=
            { name := "Unknown", email := none, phone := none,
              linkedin := none, github := none, location := none },
          skills := [],
          total_experience := "0 years and 0 months",
          error := some msg }) ∧
    (∀ msg : String,
      ((process_resume (Except.error msg)).error = some "" ↔ msg = "")) ∧
    (∀ r : PipelineSuccess, r.total_exp = "" →
      (process_resume (Except.ok r)).total_experience =
        "0 years and 0 months") := by
  refine ⟨fun msg => rfl, fun msg => ?_, fun r h => ?_⟩
  · constructor
    · intro hc
      exact Option.some_inj.mp hc
    · intro hc
      subst hc
      rfl
  · show (if r.total_exp = "" then "0 years and 0 months" else r.total_exp) =
      "0 years and 0 months"
    rw [if_pos h]

/-- Claim C1, amended, witness: the success-path default at a concrete
record with an empty experience string. -/
theorem process_resume_fallback_witness :
    (process_resume (Except.ok
      ⟨"Jane Doe", none, none, none, none, none, [], ""⟩)).total_experience =
      "0 years and 0 months" :=
  process_resume_fallback.2.2
    ⟨"Jane Doe", none, none, none, none, none, [], ""⟩ rfl

/-- Claim C9, amended, witness: the shape at a concrete date and text. -/
theorem experience_output_shape_witness :
    ∃ years months : Int,
      calculate_total_experience ⟨2026, 10, 12⟩ "Jan 2019 to Jun 2020" =
        s!"{years} years and {months} months" ∧
      0 ≤ months ∧ months ≤ 11 ∧ years ≤ 50 ∧
      (dateLe (earliestStart ⟨2026, 10, 12⟩ "Jan 2019 to Jun 2020")
          ⟨2026, 10, 12⟩ = true → 0 ≤ years) :=
  experience_output_shape ⟨2026, 10, 12⟩ "Jan 2019 to Jun 2020" (by decide)

end ResumeFinal
